import Mathlib

/-!
Shallow embedding of the Mercury Challenge ExpressScore module
(`src/ExpressScore/main/express_score.py`) and verification of its
specification.

Conventions used throughout:

* Python floats are modelled as rationals (`ℚ`); all score arithmetic in the
  source is exact on the inputs considered here.
* Functions that can raise are modelled as `Except String`; functions that
  report an error by printing and returning `None` are modelled as `Option`.
* Event dates are modelled as day numbers (`ℤ`): `parse(d).date()` subtraction
  in the source becomes integer subtraction.
* The geodesic distance provider (geopy's `distance(...).km`) is an external
  collaborator; following the spec it is treated as a pure function and passed
  as an argument `geod`.
* `dlib.max_cost_assignment` is an external maximum-weight assignment solver.
  It is modelled by `MaScorer.bestPerm`, an exhaustive search over the
  permutations of `range k`, which realises exactly the contract the spec
  assigns to the solver (an optimal assignment on the padded square matrix).
* pandas `DataFrame`s are modelled as lists: a score matrix becomes its list
  of rows together with its index (`wIds`) and columns (`eIds`), and the
  outer join in `CaseCountScorer.make_score_df` becomes `joinRows`.
-/

/-- Default values for scoring system parameters (`Defaults` class). -/
def Defaults.ACCURACY_DENOMINATOR : ℚ := 4

def Defaults.LS_WEIGHT : ℚ := 1

def Defaults.DS_WEIGHT : ℚ := 1

def Defaults.AS_WEIGHT : ℚ := 1

def Defaults.ESS_WEIGHT : ℚ := 1

def Defaults.MAX_DIST : ℚ := 100

def Defaults.DIST_BUFFER : ℚ := Defaults.MAX_DIST / 6

def Defaults.MAX_DATE_DIFF : ℚ := 4

namespace Scorer

/-- `Scorer.slope_score`: linear score scaled to 0..1; raises a `ValueError`
for an invalid threshold range (equal thresholds, or min above max). -/
def slope_score (result min_value max_value : ℚ) : Except String ℚ :=
  if min_value = max_value then
    .error "Minimum and maximum thresholds must be different"
  else if max_value < min_value then
    .error "Minimum threshold must be less than maximum threshold"
  else
    let slope := max_value - min_value
    let result1 := min result max_value
    let result2 := max result1 min_value
    .ok (1 - (result2 - min_value) / slope)

/-- `Scorer.facet_score`: 1 if some wildcard is among the acceptable GSR
values, else 1 iff the warning value is among them, else 0.  The source wraps
a scalar `gsr_value` into a list; here the GSR value is always the list. -/
def facet_score (warn_value : String) (gsr_value : List String)
    (wildcards : List String) : ℚ :=
  if wildcards.inter gsr_value ≠ [] then 1
  else if warn_value ∈ gsr_value then 1 else 0

/-- `Scorer.f1`: harmonic mean of precision and recall; raises a `ValueError`
when either argument is outside `[0, 1]`; 0 when both are 0. -/
def f1 (precision recall_ : ℚ) : Except String ℚ :=
  if precision < 0 ∨ 1 < precision then
    .error "Precision must be in the range 0.0 to 1.0"
  else if recall_ < 0 ∨ 1 < recall_ then
    .error "Recall must be in the range 0.0 to 1.0"
  else if precision = 0 ∧ recall_ = 0 then .ok 0
  else .ok (2 * precision * recall_ / (precision + recall_))

/-- `Scorer.date_diff`: signed day count `gsr_date - warn_date`. -/
def date_diff (warn_date gsr_date : ℤ) : ℤ := gsr_date - warn_date

/-- `Scorer.date_score`: `slope_score(|date_diff|, 0, max_diff)`. -/
def date_score (dd : ℤ) (max_diff : ℚ) : Except String ℚ :=
  slope_score ((|dd| : ℤ) : ℚ) 0 max_diff

end Scorer

/-- A case-count record (warning or GSR event): identifier, event type,
location fields, event date and case count.  `state`/`city` may be absent. -/
structure CCRecord where
  rid : ℕ
  event_type : String
  country : String
  state : Option String
  city : Option String
  event_date : ℤ
  case_count : ℚ
deriving DecidableEq

/-- The location scope a `CaseCountScorer` instance is configured with
(`self.event_type`, `self.country`, `self.state`, `self.city`); each of the
last three is `None` when unset. -/
structure CCConfig where
  event_type : String
  country : Option String
  state : Option String
  city : Option String
deriving DecidableEq

namespace CaseCountScorer

/-- `CaseCountScorer.quality_score`: reports an error (printing and returning
`None`, here `none`) on a negative count or non-positive accuracy
denominator; otherwise `1 - |predicted - actual| / max(predicted, actual,
accuracy_denominator)`. -/
def quality_score (predicted actual accuracy_denominator : ℚ) : Option ℚ :=
  if predicted < 0 ∨ actual < 0 then none
  else if accuracy_denominator ≤ 0 then none
  else some (1 - |predicted - actual| /
    max predicted (max actual accuracy_denominator))

/-- The record filter applied by `make_score_df`: event type and country must
match exactly (a `None` country matches nothing, as a pandas comparison with
`None` is everywhere false), and state/city are constrained only when the
scorer is configured with them. -/
def inScope (cfg : CCConfig) (r : CCRecord) : Bool :=
  r.event_type == cfg.event_type &&
    (match cfg.country with
      | some c => r.country == c
      | none => false) &&
    (match cfg.state with
      | some s => r.state == some s
      | none => true) &&
    (match cfg.city with
      | some c => r.city == some c
      | none => true)

/-- The full outer join on `Event_Date` performed by `make_score_df`
(`pd.merge(..., how="outer")`), up to row order: every date-matching
(warning, event) pair, plus warnings with no date-matching event, plus
events with no date-matching warning. -/
def joinRows (ws es : List CCRecord) : List (Option CCRecord × Option CCRecord) :=
  (ws.flatMap fun w =>
    match es.filter fun e => e.event_date == w.event_date with
    | [] => [(some w, none)]
    | e0 :: rest => (e0 :: rest).map fun e => (some w, some e)) ++
  ((es.filter fun e => ws.all fun w => !(w.event_date == e.event_date)).map
    fun e => (none, some e))

/-- Output of `CaseCountScorer.match`: the `Unmatched Warnings`,
`Unmatched GSR` and `Matches` entries of the returned dict. -/
structure CCMatchOut where
  UnmatchedWarnings : List ℕ
  UnmatchedGsr : List ℕ
  Matches : List (ℕ × ℕ)
deriving DecidableEq

/-- `CaseCountScorer.match`: rows of the outer join with a null event id give
unmatched warnings, rows with a null warning id give unmatched GSR events,
rows with both ids present give matches. -/
def matchWE (cfg : CCConfig) (warn_data gsr_data : List CCRecord) : CCMatchOut :=
  let rows := joinRows (warn_data.filter (inScope cfg))
    (gsr_data.filter (inScope cfg))
  { UnmatchedWarnings := rows.filterMap fun r =>
      match r with
      | (some w, none) => some w.rid
      | _ => none
    UnmatchedGsr := rows.filterMap fun r =>
      match r with
      | (none, some e) => some e.rid
      | _ => none
    Matches := rows.filterMap fun r =>
      match r with
      | (some w, some e) => some (w.rid, e.rid)
      | _ => none }

/-- The `Results` entry of `CaseCountScorer.score`'s output. -/
structure CCResults where
  QS : Option ℚ
  Precision : ℚ
  Recall : ℚ
deriving DecidableEq

/-- The full output dict of `CaseCountScorer.score` (match entries, `Results`,
and the `QS Values` detail list). -/
structure CCScoreOut where
  UnmatchedWarnings : List ℕ
  UnmatchedGsr : List ℕ
  Matches : List (ℕ × ℕ)
  Results : CCResults
  QSValues : List (Option ℚ)
deriving DecidableEq

/-- `CaseCountScorer.score`.  The pandas mean skips missing per-pair scores
and is undefined (`none`) over an empty set; the Python divisions
`n_match/n_warn` and `n_match/n_gsr` raise `ZeroDivisionError` when the
denominator is zero, modelled by `Except.error`. -/
def score (cfg : CCConfig) (warn_data gsr_data : List CCRecord) :
    Except String CCScoreOut :=
  let rows := joinRows (warn_data.filter (inScope cfg))
    (gsr_data.filter (inScope cfg))
  let m := matchWE cfg warn_data gsr_data
  let scorable := rows.filterMap fun r =>
    match r with
    | (some w, some e) => some (w, e)
    | _ => none
  let qsSer := scorable.map fun p =>
    quality_score p.1.case_count p.2.case_count Defaults.ACCURACY_DENOMINATOR
  let qsPresent := qsSer.filterMap id
  let meanQs : Option ℚ :=
    if qsPresent.length = 0 then none
    else some (qsPresent.sum / (qsPresent.length : ℚ))
  let nWarn := (rows.filter fun r => r.1.isSome).length
  let nGsr := (rows.filter fun r => r.2.isSome).length
  let nMatch := scorable.length
  if nWarn = 0 then .error "division by zero"
  else if nGsr = 0 then .error "division by zero"
  else
    .ok { UnmatchedWarnings := m.UnmatchedWarnings
          UnmatchedGsr := m.UnmatchedGsr
          Matches := m.Matches
          Results := { QS := meanQs
                       Precision := (nMatch : ℚ) / (nWarn : ℚ)
                       Recall := (nMatch : ℚ) / (nGsr : ℚ) }
          QSValues := qsSer }

end CaseCountScorer

/-- A Military Action warning record: the fields `MaScorer.score_one` reads. -/
structure MaWarn where
  wid : ℕ
  latitude : ℚ
  longitude : ℚ
  event_date : ℤ
  subtype : String
  actor : String
deriving DecidableEq

/-- A Military Action GSR event record: as `MaWarn` plus the approximate
location flag; actor and subtype may be lists of acceptable values. -/
structure MaEvent where
  eid : ℕ
  latitude : ℚ
  longitude : ℚ
  event_date : ℤ
  subtype : List String
  actor : List String
  approximate_location : Bool
deriving DecidableEq

namespace MaScorer

def STATE_ACTORS : List String := ["Fred", "Ethel"]

def WILDCARD_ACTORS : List String := ["Unspecified"]

def ACTORS : List String := STATE_ACTORS ++ WILDCARD_ACTORS

/-- `MaScorer.SUBTYPES`.  Modelled from the spec: the literal labels
`Subtype.CONFLICT` and `Subtype.FORCE_POSTURE` live in the `schema` module,
which is outside the scoring source; only their identity as two distinct
legitimate labels matters here. -/
def SUBTYPES : List String := ["Conflict", "Force Posture"]

/-- `MaScorer.location_score` with the geodesic distance already computed by
the external provider: for an approximate location both the distance and the
maximum distance are reduced by the buffer, then `slope_score` applies. -/
def location_score (dist_km : ℚ) (is_approximate : Bool)
    (max_dist dist_buffer : ℚ) : Except String ℚ :=
  let ia : ℚ := if is_approximate then 1 else 0
  Scorer.slope_score (dist_km - ia * dist_buffer) 0 (max_dist - ia * dist_buffer)

/-- `MaScorer.actor_score`: 0 for an illegitimate warning actor, else the
facet score against the event's actor values with the wildcard actors. -/
def actor_score (warn_actor : String) (gsr_actor : List String)
    (legit_actors wildcards : List String) : ℚ :=
  if warn_actor ∉ legit_actors then 0
  else Scorer.facet_score warn_actor gsr_actor wildcards

/-- `MaScorer.event_subtype_score`: 0 for an illegitimate warning subtype,
else the facet score against the event's subtype values (no wildcards). -/
def event_subtype_score (warn_subtype : String) (gsr_subtype : List String) : ℚ :=
  if warn_subtype ∉ SUBTYPES then 0
  else Scorer.facet_score warn_subtype gsr_subtype []

/-- The error strings accumulated by `score_one`'s weight validation, in
source order. -/
def weightErrors (ls_weight ds_weight as_weight ess_weight : ℚ) : List String :=
  (if ls_weight < 0 then ["LS Weight must be positive"] else []) ++
  (if ds_weight < 0 then ["DS Weight must be positive"] else []) ++
  (if as_weight < 0 then ["AS Weight must be positive"] else []) ++
  (if ess_weight < 0 then ["ESS Weight must be positive"] else [])

/-- The weight renormalization step of `score_one`: when the four weights do
not sum to 4.0, each is replaced by `4 * w / weight_sum`. -/
def reweight (ls_weight ds_weight as_weight ess_weight : ℚ) : ℚ × ℚ × ℚ × ℚ :=
  let s := ls_weight + ds_weight + as_weight + ess_weight
  if s = 4 then (ls_weight, ds_weight, as_weight, ess_weight)
  else (4 * ls_weight / s, 4 * ds_weight / s, 4 * as_weight / s,
    4 * ess_weight / s)

/-- The per-pair result dict of `MaScorer.score_one`.  A field holds `none`
when the corresponding key is absent from the dict; `errors`/`notices` model
the `Errors`/`Notices` entries, present exactly when nonempty. -/
structure ScoreOneResult where
  warningId : ℕ
  eventId : ℕ
  approximateLocation : Option Bool := none
  distanceKm : Option ℚ := none
  dateDifference : Option ℤ := none
  ls : Option ℚ := none
  ds : Option ℚ := none
  ess : Option ℚ := none
  asScore : Option ℚ := none
  qs : Option ℚ := none
  errors : List String := []
  notices : List String := []
deriving DecidableEq

/-- `MaScorer.score_one`.  The renormalization runs before the negative-weight
bailout, so with a weight sum of 0 the Python divisions `4*w/weight_sum`
raise `ZeroDivisionError` (modelled as `Except.error "division by zero"`);
any negative weight otherwise yields a result carrying only the error
entries; else the four component scores are computed (`location_score` and
`date_score` may raise through `slope_score`) and combined, with the
quality score forced to 0 when `min(ls, ds) == 0`. -/
def score_one (geod : ℚ → ℚ → ℚ → ℚ → ℚ) (warn_ : MaWarn) (event_ : MaEvent)
    (max_dist dist_buffer max_date_diff : ℚ)
    (legit_actors wildcards : List String)
    (ls_weight ds_weight as_weight ess_weight : ℚ) :
    Except String ScoreOneResult :=
  let error_list := weightErrors ls_weight ds_weight as_weight ess_weight
  let weight_sum := ls_weight + ds_weight + as_weight + ess_weight
  let notice_list : List String :=
    if weight_sum = 4 then []
    else ["Reweighting so that sum of weights is 4.0"]
  if weight_sum ≠ 4 ∧ weight_sum = 0 then .error "division by zero"
  else
    let w := reweight ls_weight ds_weight as_weight ess_weight
    if error_list ≠ [] then
      .ok { warningId := warn_.wid, eventId := event_.eid,
            errors := error_list, notices := notice_list }
    else
      let dist := geod warn_.latitude warn_.longitude
        event_.latitude event_.longitude
      let dd : ℤ := |event_.event_date - warn_.event_date|
      match location_score dist event_.approximate_location
          max_dist dist_buffer with
      | .error e => .error e
      | .ok lsv =>
        match Scorer.date_score
            (Scorer.date_diff warn_.event_date event_.event_date)
            max_date_diff with
        | .error e => .error e
        | .ok dsv =>
          let essv := event_subtype_score warn_.subtype event_.subtype
          let asv := actor_score warn_.actor event_.actor
            legit_actors wildcards
          let qsv : ℚ := if min lsv dsv = 0 then 0
            else w.1 * lsv + w.2.1 * dsv + w.2.2.1 * asv + w.2.2.2 * essv
          .ok { warningId := warn_.wid, eventId := event_.eid,
                approximateLocation := some event_.approximate_location,
                distanceKm := some dist, dateDifference := some dd,
                ls := some lsv, ds := some dsv, ess := some essv,
                asScore := some asv, qs := some qsv,
                errors := [], notices := notice_list }

/-- `MaScorer.score`: the source's method body builds an empty dict and
returns it unchanged, so every call yields a mapping with no keys at all
(the value type of the association list is immaterial). -/
def score (warn_data : List MaWarn) (gsr_data : List MaEvent) :
    List (String × ℚ) :=
  []

/-- Total score of a list of (row, column) pairs under a pairwise score
function. -/
def pairScoreTotal (pe : ℕ → ℕ → ℚ) (L : List (ℕ × ℕ)) : ℚ :=
  (L.map fun p => pe p.1 p.2).sum

/-- Total score of a complete assignment `σ` (row `i` is assigned column
`σ i`). -/
def permTotal (pe : ℕ → ℕ → ℚ) (σ : List ℕ) : ℚ :=
  pairScoreTotal pe ((List.range σ.length).map fun i => (i, σ.getD i 0))

/-- Fold picking a maximiser of `f` among `a :: l` (first maximiser wins). -/
def pickMax (f : List ℕ → ℚ) (a : List ℕ) (l : List (List ℕ)) : List ℕ :=
  l.foldl (fun b y => if f b < f y then y else b) a

/-- Model of the external `dlib.max_cost_assignment` solver: an assignment of
`range k` maximising the total score.  The spec's contract for the solver is
exactly optimality of the returned complete assignment. -/
def bestPerm (pe : ℕ → ℕ → ℚ) (k : ℕ) : List ℕ :=
  match (List.range k).permutations' with
  | [] => []
  | σ :: rest => pickMax (permTotal pe) σ rest

/-- Entry `(i, j)` of a matrix given as its list of rows. -/
def entryOf (S : List (List ℚ)) (i j : ℕ) : ℚ := (S.getD i []).getD j 0

/-- Entry `(i, j)` of the clamped matrix padded with zeros to a square:
`max(S[i][j], 0)` inside the original `R × C` shape and 0 outside
(`np.maximum(score_matrix, zero_matrix)` followed by the zero-padded
`score_matrix_square`). -/
def squareEntry (S : List (List ℚ)) (R C i j : ℕ) : ℚ :=
  if i < R ∧ j < C then max (entryOf S i j) 0 else 0

/-- The complete assignment on the padded square matrix as index pairs
(`assign = [(i, assign[i]) for i in range(k_max)]`). -/
def assignPairs (S : List (List ℚ)) (R C : ℕ) : List (ℕ × ℕ) :=
  (List.range (max R C)).map fun i =>
    (i, (bestPerm (squareEntry S R C) (max R C)).getD i 0)

/-- The assignment pairs kept after the zero-score filter: all of them when
`allow_zero_scores`, else only those with positive padded score
(`assign = assign[assign_scores > 0]`). -/
def keptPairs (S : List (List ℚ)) (R C : ℕ) (azs : Bool) : List (ℕ × ℕ) :=
  if azs then assignPairs S R C
  else (assignPairs S R C).filter fun p => 0 < squareEntry S R C p.1 p.2

/-- `np.max` of the matrix entries (only evaluated on nonempty matrices in
the source; 0 on an empty list of entries here). -/
def matMax (S : List (List ℚ)) : ℚ :=
  match S.flatten with
  | [] => 0
  | x :: xs => xs.foldl max x

/-- Output dict of `MaScorer.match`: `Matches`, the `Quality Scores` detail
list, `Quality Score`, `Precision`, `Recall` and `F1`. -/
structure MatchResult where
  Matches : List (ℕ × ℕ)
  QualityScores : List ℚ
  QS : ℚ
  Precision : ℚ
  Recall : ℚ
  F1 : ℚ
deriving DecidableEq

/-- The initial output dict of `MaScorer.match`, returned unchanged in the
degenerate branches. -/
def emptyMatchResult : MatchResult :=
  { Matches := [], QualityScores := [], QS := 0, Precision := 0,
    Recall := 0, F1 := 0 }

/-- Index-pair to identifier mapping
(`(warn_id_list[a[0]], event_id_list[a[1]])`): `none` models the Python
`IndexError` raised when an index is out of range. -/
def mapPairsToIds (wIds eIds : List ℕ) : List (ℕ × ℕ) → Option (List (ℕ × ℕ))
  | [] => some []
  | p :: rest =>
    match wIds[p.1]?, eIds[p.2]?, mapPairsToIds wIds eIds rest with
    | some a, some b, some rest2 => some ((a, b) :: rest2)
    | _, _, _ => none

/-- `MaScorer.match` on a score matrix with index `wIds` and columns `eIds`.
Degenerate inputs (an empty dimension, or no positive entry) return the
initial zero dict.  Otherwise the clamped, zero-padded square matrix is
solved, the kept pairs are mapped back to identifiers (raising `IndexError`
for a pair that survives with a padded index), the quality score is the
`np.mean` of the positive assignment scores (that list is nonempty on every
reachable path, so the division is the mean), precision and recall divide by
the matrix shape, and `f1` may raise a `ValueError` for an out-of-range
precision or recall. -/
def matchWE (wIds eIds : List ℕ) (S : List (List ℚ)) (allow_zero_scores : Bool) :
    Except String MatchResult :=
  let R := wIds.length
  let C := eIds.length
  if R = 0 ∨ C = 0 then .ok emptyMatchResult
  else if matMax S ≤ 0 then .ok emptyMatchResult
  else
    let sq := squareEntry S R C
    let kept := keptPairs S R C allow_zero_scores
    match mapPairsToIds wIds eIds kept with
    | none => .error "IndexError"
    | some ms =>
      let scoresPos := ((assignPairs S R C).map fun p => sq p.1 p.2).filter
        fun q => 0 < q
      let prec := (kept.length : ℚ) / (R : ℚ)
      let recl := (kept.length : ℚ) / (C : ℚ)
      match Scorer.f1 prec recl with
      | .error e => .error e
      | .ok f1v =>
        .ok { Matches := ms, QualityScores := scoresPos,
              QS := scoresPos.sum / (scoresPos.length : ℚ),
              Precision := prec, Recall := recl, F1 := f1v }

end MaScorer

/-- A geodesic distance provider that reports distance 0 km for every pair of
points (used for concrete scenarios below). -/
def geod0 : ℚ → ℚ → ℚ → ℚ → ℚ := fun _ _ _ _ => 0

/-- A warning that matches `eP` perfectly: same date, legitimate actor and
subtype equal to the event's. -/
def wP : MaWarn := ⟨1, 30, 31, 10, "Conflict", "Fred"⟩

/-- The GSR event perfectly matched by `wP` (exact location). -/
def eP : MaEvent := ⟨2, 30, 31, 10, ["Conflict"], ["Fred"], false⟩

/-- A case-count scorer scope: event type "CU" in country "JO". -/
def cfgJO : CCConfig := ⟨"CU", some "JO", none, none⟩

/-- A warning outside `cfgJO`'s scope (country "EG"). -/
def ccwOut : CCRecord := ⟨1, "CU", "EG", none, none, 3, 10⟩

/-- An event inside `cfgJO`'s scope sharing its date with `ccwOut`. -/
def cceIn : CCRecord := ⟨100, "CU", "JO", none, none, 3, 12⟩

/-- A warning inside `cfgJO`'s scope. -/
def ccwIn : CCRecord := ⟨2, "CU", "JO", none, none, 5, 8⟩

/-- An event outside `cfgJO`'s scope (country "EG"). -/
def cceOut : CCRecord := ⟨101, "CU", "EG", none, none, 5, 9⟩

/-- First of two in-scope warnings sharing the identifier 1 (date 1). -/
def ccwA : CCRecord := ⟨1, "CU", "JO", none, none, 1, 5⟩

/-- Second warning with the duplicate identifier 1 (date 2). -/
def ccwB : CCRecord := ⟨1, "CU", "JO", none, none, 2, 6⟩

/-- An in-scope event sharing date 1 with `ccwA`. -/
def cceA : CCRecord := ⟨100, "CU", "JO", none, none, 1, 7⟩

/-- An in-scope warning with a fresh identifier (date 1), for witnesses. -/
def ccwC : CCRecord := ⟨3, "CU", "JO", none, none, 1, 5⟩

/-- The column paired with row `i` in a list of index pairs (proof
infrastructure for turning a complete partial matching into an
assignment). -/
def lookupCol (L : List (ℕ × ℕ)) (i : ℕ) : ℕ :=
  ((L.find? fun p => p.1 == i).map Prod.snd).getD 0

namespace MaScorer

theorem pickMax_cons (f : List ℕ → ℚ) (a x : List ℕ) (xs : List (List ℕ)) :
    pickMax f a (x :: xs) = pickMax f (if f a < f x then x else a) xs := rfl

theorem pickMax_mem (f : List ℕ → ℚ) (l : List (List ℕ)) :
    ∀ a, pickMax f a l = a ∨ pickMax f a l ∈ l := by
  induction l with
  | nil => exact fun a => Or.inl rfl
  | cons x xs ih =>
    intro a
    rw [pickMax_cons]
    rcases ih (if f a < f x then x else a) with h | h
    · rw [h]
      by_cases hc : f a < f x
      · right
        rw [if_pos hc]
        exact List.mem_cons_self _ _
      · left
        rw [if_neg hc]
    · exact Or.inr (List.mem_cons_of_mem x h)

theorem le_pickMax (f : List ℕ → ℚ) (l : List (List ℕ)) :
    ∀ a, f a ≤ f (pickMax f a l) ∧ ∀ y ∈ l, f y ≤ f (pickMax f a l) := by
  induction l with
  | nil =>
    intro a
    refine ⟨le_refl _, ?_⟩
    intro y hy
    cases hy
  | cons x xs ih =>
    intro a
    rw [pickMax_cons]
    obtain ⟨h1, h2⟩ := ih (if f a < f x then x else a)
    constructor
    · refine le_trans ?_ h1
      by_cases hc : f a < f x
      · rw [if_pos hc]
        exact le_of_lt hc
      · rw [if_neg hc]
    · intro y hy
      rcases List.mem_cons.mp hy with rfl | hy'
      · refine le_trans ?_ h1
        by_cases hc : f a < f y
        · rw [if_pos hc]
        · rw [if_neg hc]
          exact le_of_not_lt hc
      · exact h2 y hy'

theorem permutations'_ne_nil (k : ℕ) : (List.range k).permutations' ≠ [] := by
  intro h
  have hm : List.range k ∈ (List.range k).permutations' :=
    List.mem_permutations'.mpr (List.Perm.refl _)
  rw [h] at hm
  cases hm

theorem bestPerm_mem (pe : ℕ → ℕ → ℚ) (k : ℕ) :
    bestPerm pe k ∈ (List.range k).permutations' := by
  unfold bestPerm
  split
  · next hp => exact absurd hp (permutations'_ne_nil k)
  · next σ rest hp =>
    rw [hp]
    rcases pickMax_mem (permTotal pe) rest σ with h | h
    · rw [h]
      exact List.mem_cons_self _ _
    · exact List.mem_cons_of_mem _ h

theorem bestPerm_le (pe : ℕ → ℕ → ℚ) (k : ℕ) :
    ∀ τ ∈ (List.range k).permutations',
      permTotal pe τ ≤ permTotal pe (bestPerm pe k) := by
  unfold bestPerm
  split
  · next hp =>
    intro τ hτ
    rw [hp] at hτ
    cases hτ
  · next σ rest hp =>
    intro τ hτ
    rw [hp] at hτ
    obtain ⟨h1, h2⟩ := le_pickMax (permTotal pe) rest σ
    rcases List.mem_cons.mp hτ with rfl | hτ'
    · exact h1
    · exact h2 τ hτ'

theorem bestPerm_perm (pe : ℕ → ℕ → ℚ) (k : ℕ) :
    (bestPerm pe k).Perm (List.range k) :=
  List.mem_permutations'.mp (bestPerm_mem pe k)

theorem squareEntry_nonneg (S : List (List ℚ)) (R C i j : ℕ) :
    0 ≤ squareEntry S R C i j := by
  unfold squareEntry
  split
  · exact le_max_right _ _
  · exact le_refl 0

theorem squareEntry_pos_lt {S : List (List ℚ)} {R C i j : ℕ}
    (h : 0 < squareEntry S R C i j) : i < R ∧ j < C := by
  by_contra hc
  unfold squareEntry at h
  rw [if_neg hc] at h
  exact lt_irrefl 0 h

theorem pairScoreTotal_nil (pe : ℕ → ℕ → ℚ) : pairScoreTotal pe [] = 0 := rfl

theorem pairScoreTotal_cons (pe : ℕ → ℕ → ℚ) (p : ℕ × ℕ) (L : List (ℕ × ℕ)) :
    pairScoreTotal pe (p :: L) = pe p.1 p.2 + pairScoreTotal pe L := by
  simp [pairScoreTotal]

theorem pairScoreTotal_filter_pos (pe : ℕ → ℕ → ℚ)
    (hpe : ∀ i j, 0 ≤ pe i j) (L : List (ℕ × ℕ)) :
    pairScoreTotal pe (L.filter fun p => 0 < pe p.1 p.2) = pairScoreTotal pe L := by
  induction L with
  | nil => rfl
  | cons p rest ih =>
    by_cases hp : 0 < pe p.1 p.2
    · rw [List.filter_cons_of_pos (by simpa using hp), pairScoreTotal_cons,
        pairScoreTotal_cons, ih]
    · have hz : pe p.1 p.2 = 0 := le_antisymm (le_of_not_lt hp) (hpe p.1 p.2)
      rw [List.filter_cons_of_neg (by simpa using hp), pairScoreTotal_cons, ih, hz,
        zero_add]

theorem getD_map_range {f : ℕ → ℕ × ℕ} {k i : ℕ} (d : ℕ × ℕ) (hi : i < k) :
    ((List.range k).map f).getD i d = f i := by
  rw [List.getD_eq_getElem _ _ (by simpa using hi)]
  simp

theorem getD_map_range_nat {f : ℕ → ℕ} {k i : ℕ} (d : ℕ) (hi : i < k) :
    ((List.range k).map f).getD i d = f i := by
  rw [List.getD_eq_getElem _ _ (by simpa using hi)]
  simp

theorem map_getD_range (σ : List ℕ) :
    (List.range σ.length).map (fun i => σ.getD i 0) = σ := by
  apply List.ext_getElem
  · simp
  · intro i h1 h2
    have hi : i < σ.length := h2
    simp [List.getD, List.getElem?_eq_getElem hi]

theorem assignPairs_total (S : List (List ℚ)) (R C : ℕ) :
    pairScoreTotal (squareEntry S R C) (assignPairs S R C)
      = permTotal (squareEntry S R C) (bestPerm (squareEntry S R C) (max R C)) := by
  have hlen : (bestPerm (squareEntry S R C) (max R C)).length = max R C := by
    rw [(bestPerm_perm (squareEntry S R C) (max R C)).length_eq, List.length_range]
  unfold assignPairs permTotal
  rw [hlen]

theorem length_le_of_nodup_lt {l : List ℕ} {k : ℕ} (hnd : l.Nodup)
    (hlt : ∀ x ∈ l, x < k) : l.length ≤ k := by
  have hsub : l.toFinset ⊆ Finset.range k := by
    intro x hx
    exact Finset.mem_range.mpr (hlt x (List.mem_toFinset.mp hx))
  have hc := Finset.card_le_card hsub
  rwa [Finset.card_range, List.toFinset_card_of_nodup hnd] at hc

theorem exists_not_mem_of_length_lt {l : List ℕ} {k : ℕ} (hnd : l.Nodup)
    (hlt : ∀ x ∈ l, x < k) (hlen : l.length < k) : ∃ r, r < k ∧ r ∉ l := by
  by_contra h
  push_neg at h
  have hsub : Finset.range k ⊆ l.toFinset := by
    intro x hx
    exact List.mem_toFinset.mpr (h x (Finset.mem_range.mp hx))
  have hc := Finset.card_le_card hsub
  rw [Finset.card_range, List.toFinset_card_of_nodup hnd] at hc
  omega

theorem mem_fst_of_length_eq {L : List (ℕ × ℕ)} {k : ℕ}
    (hnd : (L.map Prod.fst).Nodup) (hlt : ∀ p ∈ L, p.1 < k)
    (hlen : L.length = k) : ∀ i < k, i ∈ L.map Prod.fst := by
  intro i hi
  have hsub : (L.map Prod.fst).toFinset ⊆ Finset.range k := by
    intro x hx
    rw [List.mem_toFinset] at hx
    obtain ⟨p, hp, rfl⟩ := List.mem_map.mp hx
    exact Finset.mem_range.mpr (hlt p hp)
  have hcard : (L.map Prod.fst).toFinset.card = k := by
    rw [List.toFinset_card_of_nodup hnd, List.length_map, hlen]
  have heq : (L.map Prod.fst).toFinset = Finset.range k :=
    Finset.eq_of_subset_of_card_le hsub (by rw [hcard, Finset.card_range])
  have : i ∈ (L.map Prod.fst).toFinset := by
    rw [heq]
    exact Finset.mem_range.mpr hi
  exact List.mem_toFinset.mp this

theorem find?_eq_of_nodup_fst {L : List (ℕ × ℕ)} (hnd : (L.map Prod.fst).Nodup)
    {i c : ℕ} (hm : (i, c) ∈ L) :
    L.find? (fun p => p.1 == i) = some (i, c) := by
  induction L with
  | nil => cases hm
  | cons q rest ih =>
    rw [List.map_cons, List.nodup_cons] at hnd
    rcases List.mem_cons.mp hm with rfl | hm'
    · rw [List.find?_cons_of_pos _ (by simp)]
    · have hq : q.1 ≠ i := by
        intro h
        refine hnd.1 ?_
        rw [h]
        exact List.mem_map_of_mem Prod.fst hm'
      rw [List.find?_cons_of_neg _ (by simp [hq])]
      exact ih hnd.2 hm'

theorem lookupCol_eq {L : List (ℕ × ℕ)} (hnd : (L.map Prod.fst).Nodup)
    {i c : ℕ} (hm : (i, c) ∈ L) : lookupCol L i = c := by
  unfold lookupCol
  rw [find?_eq_of_nodup_fst hnd hm]
  rfl

theorem exists_perm_total_of_length_eq (pe : ℕ → ℕ → ℚ) {k : ℕ}
    {L : List (ℕ × ℕ)} (hf : (L.map Prod.fst).Nodup)
    (hs : (L.map Prod.snd).Nodup) (hb : ∀ p ∈ L, p.1 < k ∧ p.2 < k)
    (hlen : L.length = k) :
    ∃ σ ∈ (List.range k).permutations', pairScoreTotal pe L = permTotal pe σ := by
  have hbf : ∀ p ∈ L, p.1 < k := fun p hp => (hb p hp).1
  have hmemf := mem_fst_of_length_eq hf hbf hlen
  -- For each i < k there is a unique pair (i, lookupCol L i) in L.
  have hpair : ∀ i, i < k → (i, lookupCol L i) ∈ L := by
    intro i hi
    obtain ⟨p, hp, hpe1⟩ := List.mem_map.mp (hmemf i hi)
    have : p = (i, p.2) := by
      rw [← hpe1]
    rw [this] at hp
    rw [lookupCol_eq hf hp]
    exact hp
  refine ⟨(List.range k).map (lookupCol L), ?_, ?_⟩
  · -- the constructed assignment is a permutation of range k
    apply List.mem_permutations'.mpr
    have hinj : ∀ x ∈ List.range k, ∀ y ∈ List.range k,
        lookupCol L x = lookupCol L y → x = y := by
      intro x hx y hy hxy
      have hpx := hpair x (List.mem_range.mp hx)
      have hpy := hpair y (List.mem_range.mp hy)
      rw [hxy] at hpx
      have := List.inj_on_of_nodup_map hs hpx hpy rfl
      exact congrArg Prod.fst this
    have hnd : ((List.range k).map (lookupCol L)).Nodup :=
      (List.nodup_range k).map_on hinj
    have hsub : (List.range k).map (lookupCol L) ⊆ List.range k := by
      intro x hx
      obtain ⟨i, hi, rfl⟩ := List.mem_map.mp hx
      exact List.mem_range.mpr
        (hb _ (hpair i (List.mem_range.mp hi))).2
    refine (hnd.subperm hsub).perm_of_length_le ?_
    rw [List.length_map]
  · -- total of L equals the assignment's total
    have hM : L.Perm ((List.range k).map fun i => (i, lookupCol L i)) := by
      apply (List.perm_ext_iff_of_nodup (hf.of_map) ?_).mpr
      · intro p
        constructor
        · intro hp
          apply List.mem_map.mpr
          refine ⟨p.1, List.mem_range.mpr (hb p hp).1, ?_⟩
          have : p = (p.1, p.2) := rfl
          rw [this] at hp
          rw [lookupCol_eq hf hp]
        · intro hp
          obtain ⟨i, hi, rfl⟩ := List.mem_map.mp hp
          exact hpair i (List.mem_range.mp hi)
      · refine (List.nodup_range k).map_on ?_
        intro x _ y _ hxy
        exact congrArg Prod.fst hxy
    have hsum : pairScoreTotal pe L
        = pairScoreTotal pe ((List.range k).map fun i => (i, lookupCol L i)) := by
      unfold pairScoreTotal
      exact (hM.map _).sum_eq
    rw [hsum]
    unfold permTotal
    rw [List.length_map, List.length_range]
    congr 1
    apply List.map_congr_left
    intro i hi
    rw [getD_map_range_nat 0 (List.mem_range.mp hi)]

theorem exists_perm_total_ge (pe : ℕ → ℕ → ℚ) (hpe : ∀ i j, 0 ≤ pe i j)
    (k : ℕ) : ∀ (n : ℕ) (L : List (ℕ × ℕ)), k - L.length ≤ n →
      (L.map Prod.fst).Nodup → (L.map Prod.snd).Nodup →
      (∀ p ∈ L, p.1 < k ∧ p.2 < k) →
      ∃ σ ∈ (List.range k).permutations',
        pairScoreTotal pe L ≤ permTotal pe σ := by
  intro n
  induction n with
  | zero =>
    intro L h0 hf hs hb
    have hle : L.length ≤ k := by
      have := length_le_of_nodup_lt hf (by
        intro x hx
        obtain ⟨p, hp, rfl⟩ := List.mem_map.mp hx
        exact (hb p hp).1)
      rwa [List.length_map] at this
    have hlen : L.length = k := by omega
    obtain ⟨σ, hσ, he⟩ := exists_perm_total_of_length_eq pe hf hs hb hlen
    exact ⟨σ, hσ, le_of_eq he⟩
  | succ n ih =>
    intro L h1 hf hs hb
    have hle : L.length ≤ k := by
      have := length_le_of_nodup_lt hf (by
        intro x hx
        obtain ⟨p, hp, rfl⟩ := List.mem_map.mp hx
        exact (hb p hp).1)
      rwa [List.length_map] at this
    by_cases hlen : L.length = k
    · obtain ⟨σ, hσ, he⟩ := exists_perm_total_of_length_eq pe hf hs hb hlen
      exact ⟨σ, hσ, le_of_eq he⟩
    · have hlt : L.length < k := by omega
      obtain ⟨r, hr, hrn⟩ := exists_not_mem_of_length_lt hf (by
        intro x hx
        obtain ⟨p, hp, rfl⟩ := List.mem_map.mp hx
        exact (hb p hp).1) (by rwa [List.length_map])
      obtain ⟨c, hc, hcn⟩ := exists_not_mem_of_length_lt hs (by
        intro x hx
        obtain ⟨p, hp, rfl⟩ := List.mem_map.mp hx
        exact (hb p hp).2) (by rwa [List.length_map])
      obtain ⟨σ, hσ, he⟩ := ih ((r, c) :: L) (by simp; omega)
        (by rw [List.map_cons, List.nodup_cons]; exact ⟨hrn, hf⟩)
        (by rw [List.map_cons, List.nodup_cons]; exact ⟨hcn, hs⟩)
        (by
          intro p hp
          rcases List.mem_cons.mp hp with rfl | hp'
          · exact ⟨hr, hc⟩
          · exact hb p hp')
      refine ⟨σ, hσ, le_trans ?_ he⟩
      rw [pairScoreTotal_cons]
      have := hpe r c
      linarith

theorem pairs_le_bestPerm (pe : ℕ → ℕ → ℚ) (hpe : ∀ i j, 0 ≤ pe i j)
    (k : ℕ) (L : List (ℕ × ℕ)) (hf : (L.map Prod.fst).Nodup)
    (hs : (L.map Prod.snd).Nodup) (hb : ∀ p ∈ L, p.1 < k ∧ p.2 < k) :
    pairScoreTotal pe L ≤ permTotal pe (bestPerm pe k) := by
  obtain ⟨σ, hσ, hle⟩ := exists_perm_total_ge pe hpe k (k - L.length) L
    le_rfl hf hs hb
  exact hle.trans (bestPerm_le pe k σ hσ)

theorem assignPairs_map_fst (S : List (List ℚ)) (R C : ℕ) :
    (assignPairs S R C).map Prod.fst = List.range (max R C) := by
  unfold assignPairs
  rw [List.map_map]
  have hid : (Prod.fst ∘ fun i =>
      (i, (bestPerm (squareEntry S R C) (max R C)).getD i 0)) = id := rfl
  rw [hid, List.map_id]

theorem bestPerm_length (pe : ℕ → ℕ → ℚ) (k : ℕ) :
    (bestPerm pe k).length = k := by
  rw [(bestPerm_perm pe k).length_eq, List.length_range]

theorem assignPairs_map_snd (S : List (List ℚ)) (R C : ℕ) :
    (assignPairs S R C).map Prod.snd
      = bestPerm (squareEntry S R C) (max R C) := by
  apply List.ext_getElem
  · simp [assignPairs, bestPerm_length]
  · intro i h1 h2
    have hi : i < (bestPerm (squareEntry S R C) (max R C)).length := h2
    simp only [assignPairs, List.getElem_map, List.getElem_range]
    simp [List.getD, List.getElem?_eq_getElem hi]

theorem keptPairs_sublist (S : List (List ℚ)) (R C : ℕ) (azs : Bool) :
    (keptPairs S R C azs).Sublist (assignPairs S R C) := by
  cases azs with
  | true => exact List.Sublist.refl _
  | false => exact List.filter_sublist _

theorem keptPairs_nodup_fst (S : List (List ℚ)) (R C : ℕ) (azs : Bool) :
    ((keptPairs S R C azs).map Prod.fst).Nodup := by
  have h1 : ((keptPairs S R C azs).map Prod.fst).Sublist
      ((assignPairs S R C).map Prod.fst) :=
    (keptPairs_sublist S R C azs).map _
  rw [assignPairs_map_fst] at h1
  exact h1.nodup (List.nodup_range _)

theorem keptPairs_nodup_snd (S : List (List ℚ)) (R C : ℕ) (azs : Bool) :
    ((keptPairs S R C azs).map Prod.snd).Nodup := by
  have h1 : ((keptPairs S R C azs).map Prod.snd).Sublist
      ((assignPairs S R C).map Prod.snd) :=
    (keptPairs_sublist S R C azs).map _
  rw [assignPairs_map_snd] at h1
  have hbnd : (bestPerm (squareEntry S R C) (max R C)).Nodup :=
    ((bestPerm_perm _ _).nodup_iff).mpr (List.nodup_range _)
  exact h1.nodup hbnd

theorem keptPairs_total (S : List (List ℚ)) (R C : ℕ) (azs : Bool) :
    pairScoreTotal (squareEntry S R C) (keptPairs S R C azs)
      = pairScoreTotal (squareEntry S R C) (assignPairs S R C) := by
  cases azs with
  | true => rfl
  | false => exact pairScoreTotal_filter_pos _ (squareEntry_nonneg S R C) _

end MaScorer

/-- C1: `MaScorer.match` returns the initial empty/zero result (no assignment
attempted) when either dimension is 0 or no entry is positive; otherwise the
pairs it keeps use each row and each column at most once and maximise the
total of the clamped zero-padded score over every list of pairs in which
each row index (below R) and each column index (below C) is used at most
once; and on the score matrix `[[0.9, 0.1], [0.1, 0.9]]` the diagonal
pairing is returned, with mean score 0.9 and precision, recall and F1
all 1. -/
theorem claim_C1 :
    (∀ (wIds eIds : List ℕ) (S : List (List ℚ)) (azs : Bool),
      wIds.length = 0 ∨ eIds.length = 0 ∨ MaScorer.matMax S ≤ 0 →
      MaScorer.matchWE wIds eIds S azs = .ok MaScorer.emptyMatchResult)
    ∧ (∀ (wIds eIds : List ℕ) (S : List (List ℚ)) (azs : Bool)
        (L : List (ℕ × ℕ)), ¬ MaScorer.matMax S ≤ 0 →
        (L.map Prod.fst).Nodup → (L.map Prod.snd).Nodup →
        (∀ p ∈ L, p.1 < wIds.length ∧ p.2 < eIds.length) →
        ((MaScorer.keptPairs S wIds.length eIds.length azs).map
          Prod.fst).Nodup
        ∧ ((MaScorer.keptPairs S wIds.length eIds.length azs).map
          Prod.snd).Nodup
        ∧ MaScorer.pairScoreTotal
            (MaScorer.squareEntry S wIds.length eIds.length) L
          ≤ MaScorer.pairScoreTotal
            (MaScorer.squareEntry S wIds.length eIds.length)
            (MaScorer.keptPairs S wIds.length eIds.length azs))
    ∧ MaScorer.matchWE [0, 1] [0, 1] [[9/10, 1/10], [1/10, 9/10]] false
        = .ok ⟨[(0, 0), (1, 1)], [9/10, 9/10], 9/10, 1, 1, 1⟩ := by
  refine ⟨?_, ?_, ?_⟩
  · intro wIds eIds S azs h
    simp only [MaScorer.matchWE]
    by_cases h0 : wIds.length = 0 ∨ eIds.length = 0
    · rw [if_pos h0]
    · rw [if_neg h0]
      have hm : MaScorer.matMax S ≤ 0 := by tauto
      rw [if_pos hm]
  · intro wIds eIds S azs L hM hf hs hb
    refine ⟨MaScorer.keptPairs_nodup_fst S wIds.length eIds.length azs,
      MaScorer.keptPairs_nodup_snd S wIds.length eIds.length azs, ?_⟩
    rw [MaScorer.keptPairs_total, MaScorer.assignPairs_total]
    apply MaScorer.pairs_le_bestPerm _
      (MaScorer.squareEntry_nonneg S wIds.length eIds.length) _ L hf hs
    intro p hp
    obtain ⟨h1, h2⟩ := hb p hp
    exact ⟨lt_of_lt_of_le h1 (le_max_left _ _),
      lt_of_lt_of_le h2 (le_max_right _ _)⟩
  · norm_num [MaScorer.matchWE, MaScorer.matMax, MaScorer.keptPairs,
      MaScorer.assignPairs, MaScorer.bestPerm, MaScorer.pickMax,
      MaScorer.permTotal, MaScorer.pairScoreTotal, MaScorer.squareEntry,
      MaScorer.entryOf, MaScorer.mapPairsToIds, Scorer.f1,
      List.permutations', List.permutations'Aux, List.range_succ]

/-- Witness for C1: the off-diagonal pairing of the concrete 2×2 matrix uses
each row and column at most once and its total is no larger than the total
of the pairs the solver keeps. -/
theorem claim_C1_witness :
    MaScorer.pairScoreTotal
        (MaScorer.squareEntry [[9/10, 1/10], [1/10, 9/10]] 2 2) [(0, 1), (1, 0)]
      ≤ MaScorer.pairScoreTotal
        (MaScorer.squareEntry [[9/10, 1/10], [1/10, 9/10]] 2 2)
        (MaScorer.keptPairs [[9/10, 1/10], [1/10, 9/10]] 2 2 false) :=
  (claim_C1.2.1 [0, 1] [0, 1] [[9/10, 1/10], [1/10, 9/10]] false
    [(0, 1), (1, 0)] (by norm_num [MaScorer.matMax]) (by decide) (by decide)
    (by decide)).2.2

namespace MaScorer

theorem keptPairs_false_mem {S : List (List ℚ)} {R C : ℕ} {p : ℕ × ℕ}
    (hp : p ∈ keptPairs S R C false) :
    p ∈ assignPairs S R C ∧ 0 < squareEntry S R C p.1 p.2 := by
  have hp' : p ∈ (assignPairs S R C).filter
      (fun q => decide (0 < squareEntry S R C q.1 q.2)) := hp
  have := List.mem_filter.mp hp'
  exact ⟨this.1, by simpa using this.2⟩

theorem foldl_max_mem (x : ℚ) (xs : List ℚ) :
    xs.foldl max x = x ∨ xs.foldl max x ∈ xs := by
  induction xs generalizing x with
  | nil => exact Or.inl rfl
  | cons y ys ih =>
    rw [List.foldl_cons]
    rcases ih (max x y) with h | h
    · rw [h]
      rcases max_choice x y with h2 | h2
      · exact Or.inl h2
      · exact Or.inr (by rw [h2]; exact List.mem_cons_self _ _)
    · exact Or.inr (List.mem_cons_of_mem _ h)

theorem flatten_ne_nil_of_matMax_pos {S : List (List ℚ)}
    (h : ¬ matMax S ≤ 0) : S.flatten ≠ [] := by
  intro hf
  apply h
  unfold matMax
  rw [hf]

theorem matMax_mem {S : List (List ℚ)} (h : S.flatten ≠ []) :
    matMax S ∈ S.flatten := by
  unfold matMax
  cases hf : S.flatten with
  | nil => exact absurd hf h
  | cons x xs =>
    show xs.foldl max x ∈ x :: xs
    rcases foldl_max_mem x xs with h2 | h2
    · rw [h2]
      exact List.mem_cons_self _ _
    · exact List.mem_cons_of_mem _ h2

theorem exists_entry_eq_matMax {S : List (List ℚ)} (h : ¬ matMax S ≤ 0) :
    ∃ i j, i < S.length ∧ j < (S.getD i []).length ∧
      entryOf S i j = matMax S := by
  have hm := matMax_mem (flatten_ne_nil_of_matMax_pos h)
  obtain ⟨row, hrow, hxrow⟩ := List.mem_flatten.mp hm
  obtain ⟨i, hi, hieq⟩ := List.mem_iff_getElem.mp hrow
  obtain ⟨j, hj, hjeq⟩ := List.mem_iff_getElem.mp hxrow
  refine ⟨i, j, hi, ?_, ?_⟩
  · rw [List.getD_eq_getElem _ _ hi, hieq]
    exact hj
  · unfold entryOf
    rw [List.getD_eq_getElem _ _ hi, hieq, List.getD_eq_getElem _ _ hj, hjeq]

theorem exists_perm_total_pos {S : List (List ℚ)} {R C : ℕ}
    (hR : S.length = R) (hC : ∀ row ∈ S, row.length = C)
    (hM : ¬ matMax S ≤ 0) :
    0 < permTotal (squareEntry S R C)
      (bestPerm (squareEntry S R C) (max R C)) := by
  obtain ⟨i0, j0, hi0, hj0, hentry⟩ := exists_entry_eq_matMax hM
  have hi0R : i0 < R := hR ▸ hi0
  have hj0C : j0 < C := by
    have hmem : S.getD i0 [] ∈ S := by
      rw [List.getD_eq_getElem _ _ hi0]
      exact List.getElem_mem hi0
    rw [← hC _ hmem]
    exact hj0
  have hi0k : i0 < max R C := lt_of_lt_of_le hi0R (le_max_left _ _)
  have hj0k : j0 < max R C := lt_of_lt_of_le hj0C (le_max_right _ _)
  have hsq : 0 < squareEntry S R C i0 j0 := by
    unfold squareEntry
    rw [if_pos ⟨hi0R, hj0C⟩, hentry]
    exact lt_max_of_lt_left (lt_of_not_le hM)
  have hswap_lt : ∀ i < max R C,
      (if i = i0 then j0 else if i = j0 then i0 else i) < max R C := by
    intro i hi
    split_ifs <;> omega
  have hτmem : (List.range (max R C)).map
      (fun i => if i = i0 then j0 else if i = j0 then i0 else i)
      ∈ (List.range (max R C)).permutations' := by
    apply List.mem_permutations'.mpr
    have hinj : Function.Injective
        (fun i => if i = i0 then j0 else if i = j0 then i0 else i) := by
      intro x y hxy
      simp only at hxy
      split_ifs at hxy <;> omega
    apply (List.perm_ext_iff_of_nodup
      ((List.nodup_range _).map hinj) (List.nodup_range _)).mpr
    intro x
    constructor
    · intro hx
      obtain ⟨i, hi, rfl⟩ := List.mem_map.mp hx
      exact List.mem_range.mpr (hswap_lt i (List.mem_range.mp hi))
    · intro hx
      apply List.mem_map.mpr
      refine ⟨if x = i0 then j0 else if x = j0 then i0 else x,
        List.mem_range.mpr (hswap_lt x (List.mem_range.mp hx)), ?_⟩
      beta_reduce
      split_ifs <;> omega
  have hτle : squareEntry S R C i0 j0
      ≤ permTotal (squareEntry S R C)
        ((List.range (max R C)).map
          (fun i => if i = i0 then j0 else if i = j0 then i0 else i)) := by
    unfold permTotal pairScoreTotal
    rw [List.length_map, List.length_range]
    apply List.single_le_sum
    · intro x hx
      obtain ⟨p, _, rfl⟩ := List.mem_map.mp hx
      exact squareEntry_nonneg _ _ _ _ _
    · apply List.mem_map.mpr
      refine ⟨(i0, j0), ?_, rfl⟩
      apply List.mem_map.mpr
      refine ⟨i0, List.mem_range.mpr hi0k, ?_⟩
      rw [getD_map_range_nat 0 hi0k]
      rw [if_pos rfl]
  exact lt_of_lt_of_le hsq
    (hτle.trans (bestPerm_le _ (max R C) _ hτmem))

theorem keptPairs_false_ne_nil {S : List (List ℚ)} {R C : ℕ}
    (hR : S.length = R) (hC : ∀ row ∈ S, row.length = C)
    (hM : ¬ matMax S ≤ 0) : keptPairs S R C false ≠ [] := by
  intro h
  have htot := keptPairs_total S R C false
  rw [h, assignPairs_total] at htot
  have hpos := exists_perm_total_pos hR hC hM
  rw [← htot] at hpos
  exact lt_irrefl 0 hpos

theorem mapPairsToIds_eq (wIds eIds : List ℕ) (L : List (ℕ × ℕ))
    (hb : ∀ p ∈ L, p.1 < wIds.length ∧ p.2 < eIds.length) :
    mapPairsToIds wIds eIds L
      = some (L.map fun p => (wIds.getD p.1 0, eIds.getD p.2 0)) := by
  induction L with
  | nil => rfl
  | cons p rest ih =>
    obtain ⟨h1, h2⟩ := hb p (List.mem_cons_self _ _)
    simp only [mapPairsToIds, List.getElem?_eq_getElem h1,
      List.getElem?_eq_getElem h2,
      ih (fun q hq => hb q (List.mem_cons_of_mem _ hq)), List.map_cons]
    rw [List.getD_eq_getElem _ _ h1, List.getD_eq_getElem _ _ h2]

theorem filter_pos_map (g : ℕ × ℕ → ℚ) (l : List (ℕ × ℕ)) :
    ((l.map g).filter fun q => 0 < q) = (l.filter fun p => 0 < g p).map g := by
  induction l with
  | nil => rfl
  | cons p rest ih =>
    by_cases h : 0 < g p
    · rw [List.map_cons, List.filter_cons_of_pos (by simpa using h),
        List.filter_cons_of_pos (by simpa using h), List.map_cons, ih]
    · rw [List.map_cons, List.filter_cons_of_neg (by simpa using h),
        List.filter_cons_of_neg (by simpa using h), ih]

theorem f1_ok {p r : ℚ} (hp0 : 0 < p) (hp1 : p ≤ 1) (hr0 : 0 ≤ r)
    (hr1 : r ≤ 1) : Scorer.f1 p r = .ok (2 * p * r / (p + r)) := by
  unfold Scorer.f1
  rw [if_neg (by push_neg; exact ⟨le_of_lt hp0, hp1⟩),
    if_neg (by push_neg; exact ⟨hr0, hr1⟩),
    if_neg (by intro hand; exact absurd hand.1 (ne_of_gt hp0))]

end MaScorer

namespace MaScorer

theorem matchWE_eval {wIds eIds : List ℕ} {S : List (List ℚ)} {azs : Bool}
    {ms : List (ℕ × ℕ)} {f1v : ℚ}
    (h0 : ¬ (wIds.length = 0 ∨ eIds.length = 0))
    (hM : ¬ matMax S ≤ 0)
    (hmap : mapPairsToIds wIds eIds
      (keptPairs S wIds.length eIds.length azs) = some ms)
    (hf1 : Scorer.f1
      (((keptPairs S wIds.length eIds.length azs).length : ℚ)
        / (wIds.length : ℚ))
      (((keptPairs S wIds.length eIds.length azs).length : ℚ)
        / (eIds.length : ℚ)) = .ok f1v) :
    matchWE wIds eIds S azs = .ok
      { Matches := ms
        QualityScores := ((assignPairs S wIds.length eIds.length).map
          (fun p => squareEntry S wIds.length eIds.length p.1 p.2)).filter
            (fun q => 0 < q)
        QS := (((assignPairs S wIds.length eIds.length).map
          (fun p => squareEntry S wIds.length eIds.length p.1 p.2)).filter
            (fun q => 0 < q)).sum
          / ((((assignPairs S wIds.length eIds.length).map
            (fun p => squareEntry S wIds.length eIds.length p.1 p.2)).filter
              (fun q => 0 < q)).length : ℚ)
        Precision := ((keptPairs S wIds.length eIds.length azs).length : ℚ)
          / (wIds.length : ℚ)
        Recall := ((keptPairs S wIds.length eIds.length azs).length : ℚ)
          / (eIds.length : ℚ)
        F1 := f1v } := by
  simp only [matchWE]
  rw [if_neg h0, if_neg hM, hmap, hf1]

end MaScorer

/-- C2 (counterexample): with `allow_zero_scores = True` on the square matrix
`[[1, 0], [0, 0]]` the zero-score pair (1, 1) survives into `Matches`, yet
the returned Quality Score is 1 — the mean of the positive assignment scores
only — while the mean of the surviving pairs' scores is (1 + 0)/2 = 1/2, so
the claimed post-processing does not hold for every value of
`allow_zero_scores`. -/
theorem claim_C2_counterexample :
    MaScorer.matchWE [0, 1] [0, 1] [[1, 0], [0, 0]] true
      = .ok ⟨[(0, 0), (1, 1)], [1], 1, 1, 1, 1⟩
    ∧ ((1 : ℚ) + 0) / 2 ≠ (1 : ℚ) := by
  constructor
  · norm_num [MaScorer.matchWE, MaScorer.matMax, MaScorer.keptPairs,
      MaScorer.assignPairs, MaScorer.bestPerm, MaScorer.pickMax,
      MaScorer.permTotal, MaScorer.pairScoreTotal, MaScorer.squareEntry,
      MaScorer.entryOf, MaScorer.mapPairsToIds, Scorer.f1,
      List.permutations', List.permutations'Aux, List.range_succ]
  · norm_num

/-- C2 (amended): when `allow_zero_scores` is False, for every non-degenerate
score matrix the surviving assignment pairs all have original row index < R
and column index < C with strictly positive clamped score (pairs existing
only due to padding, and zero-score pairs, are discarded), `Matches` is
exactly those pairs mapped back to identifiers, the Quality Score is the
mean of their scores, Precision = |pairs|/R, Recall = |pairs|/C, and F1 is
the harmonic mean of Precision and Recall.  (With `allow_zero_scores` set,
padding and zero-score pairs are kept and the Quality Score is not the mean
over the surviving pairs — see the counterexample.) -/
theorem claim_C2_amended (wIds eIds : List ℕ) (S : List (List ℚ))
    (r : MaScorer.MatchResult)
    (hRS : S.length = wIds.length)
    (hCS : ∀ row ∈ S, row.length = eIds.length)
    (hR0 : wIds.length ≠ 0) (hC0 : eIds.length ≠ 0)
    (hM : ¬ MaScorer.matMax S ≤ 0)
    (hok : MaScorer.matchWE wIds eIds S false = .ok r) :
    MaScorer.keptPairs S wIds.length eIds.length false ≠ []
    ∧ (∀ p ∈ MaScorer.keptPairs S wIds.length eIds.length false,
        p.1 < wIds.length ∧ p.2 < eIds.length
          ∧ 0 < MaScorer.squareEntry S wIds.length eIds.length p.1 p.2)
    ∧ r.Matches = (MaScorer.keptPairs S wIds.length eIds.length false).map
        (fun p => (wIds.getD p.1 0, eIds.getD p.2 0))
    ∧ r.QS = ((MaScorer.keptPairs S wIds.length eIds.length false).map
          (fun p => MaScorer.squareEntry S wIds.length eIds.length p.1 p.2)).sum
        / ((MaScorer.keptPairs S wIds.length eIds.length false).length : ℚ)
    ∧ r.Precision
        = ((MaScorer.keptPairs S wIds.length eIds.length false).length : ℚ)
          / (wIds.length : ℚ)
    ∧ r.Recall
        = ((MaScorer.keptPairs S wIds.length eIds.length false).length : ℚ)
          / (eIds.length : ℚ)
    ∧ r.F1 = 2 * r.Precision * r.Recall / (r.Precision + r.Recall) := by
  have hbounds : ∀ p ∈ MaScorer.keptPairs S wIds.length eIds.length false,
      p.1 < wIds.length ∧ p.2 < eIds.length
        ∧ 0 < MaScorer.squareEntry S wIds.length eIds.length p.1 p.2 := by
    intro p hp
    obtain ⟨hpa, hpos⟩ := MaScorer.keptPairs_false_mem hp
    obtain ⟨h1, h2⟩ := MaScorer.squareEntry_pos_lt hpos
    exact ⟨h1, h2, hpos⟩
  have hne := MaScorer.keptPairs_false_ne_nil hRS hCS hM
  have hmap := MaScorer.mapPairsToIds_eq wIds eIds
    (MaScorer.keptPairs S wIds.length eIds.length false)
    (fun p hp => ⟨(hbounds p hp).1, (hbounds p hp).2.1⟩)
  have hlenpos : 0 < (MaScorer.keptPairs S wIds.length eIds.length false).length :=
    List.length_pos.mpr hne
  have hlenR : (MaScorer.keptPairs S wIds.length eIds.length false).length
      ≤ wIds.length := by
    have hnd := MaScorer.keptPairs_nodup_fst S wIds.length eIds.length false
    have hle := MaScorer.length_le_of_nodup_lt hnd (by
      intro x hx
      obtain ⟨p, hp, rfl⟩ := List.mem_map.mp hx
      exact (hbounds p hp).1)
    rwa [List.length_map] at hle
  have hlenC : (MaScorer.keptPairs S wIds.length eIds.length false).length
      ≤ eIds.length := by
    have hnd := MaScorer.keptPairs_nodup_snd S wIds.length eIds.length false
    have hle := MaScorer.length_le_of_nodup_lt hnd (by
      intro x hx
      obtain ⟨p, hp, rfl⟩ := List.mem_map.mp hx
      exact (hbounds p hp).2.1)
    rwa [List.length_map] at hle
  have hRpos : (0 : ℚ) < (wIds.length : ℚ) := by
    exact_mod_cast Nat.pos_of_ne_zero hR0
  have hCpos : (0 : ℚ) < (eIds.length : ℚ) := by
    exact_mod_cast Nat.pos_of_ne_zero hC0
  have hprec_pos : 0 < ((MaScorer.keptPairs S wIds.length eIds.length
      false).length : ℚ) / (wIds.length : ℚ) :=
    div_pos (by exact_mod_cast hlenpos) hRpos
  have hprec_le : ((MaScorer.keptPairs S wIds.length eIds.length
      false).length : ℚ) / (wIds.length : ℚ) ≤ 1 := by
    rw [div_le_one hRpos]
    exact_mod_cast hlenR
  have hrec_pos : 0 < ((MaScorer.keptPairs S wIds.length eIds.length
      false).length : ℚ) / (eIds.length : ℚ) :=
    div_pos (by exact_mod_cast hlenpos) hCpos
  have hrec_le : ((MaScorer.keptPairs S wIds.length eIds.length
      false).length : ℚ) / (eIds.length : ℚ) ≤ 1 := by
    rw [div_le_one hCpos]
    exact_mod_cast hlenC
  have hf1 := MaScorer.f1_ok hprec_pos hprec_le (le_of_lt hrec_pos) hrec_le
  have hsp : ((MaScorer.assignPairs S wIds.length eIds.length).map
      (fun p => MaScorer.squareEntry S wIds.length eIds.length p.1 p.2)).filter
        (fun q => 0 < q)
      = (MaScorer.keptPairs S wIds.length eIds.length false).map
          (fun p => MaScorer.squareEntry S wIds.length eIds.length p.1 p.2) := by
    rw [MaScorer.filter_pos_map]
    rfl
  rw [MaScorer.matchWE_eval (by push_neg; exact ⟨hR0, hC0⟩) hM hmap hf1] at hok
  have hr := Except.ok.inj hok
  refine ⟨hne, hbounds, ?_, ?_, ?_, ?_, ?_⟩
  · rw [← hr]
  · rw [← hr]
    show (((MaScorer.assignPairs S wIds.length eIds.length).map
      (fun p => MaScorer.squareEntry S wIds.length eIds.length p.1 p.2)).filter
        (fun q => 0 < q)).sum / _ = _
    rw [hsp, List.length_map]
  · rw [← hr]
  · rw [← hr]
  · rw [← hr]

/-- Witness for C2 (amended): the diagonal 2×2 matrix instantiates the
amended claim; the kept pairs are nonempty and the returned Quality Score is
the mean of their scores. -/
theorem claim_C2_witness :
    MaScorer.keptPairs [[9/10, 1/10], [1/10, 9/10]] 2 2 false ≠ []
    ∧ (MaScorer.MatchResult.mk [(0, 0), (1, 1)] [9/10, 9/10] (9/10) 1 1 1).QS
      = ((MaScorer.keptPairs [[9/10, 1/10], [1/10, 9/10]] 2 2 false).map
          (fun p =>
            MaScorer.squareEntry [[9/10, 1/10], [1/10, 9/10]] 2 2 p.1 p.2)).sum
        / ((MaScorer.keptPairs [[9/10, 1/10], [1/10, 9/10]] 2 2
            false).length : ℚ) := by
  have h := claim_C2_amended [0, 1] [0, 1] [[9/10, 1/10], [1/10, 9/10]]
    ⟨[(0, 0), (1, 1)], [9/10, 9/10], 9/10, 1, 1, 1⟩ rfl (by decide) (by decide)
    (by decide) (by norm_num [MaScorer.matMax])
    (by norm_num [MaScorer.matchWE, MaScorer.matMax, MaScorer.keptPairs,
      MaScorer.assignPairs, MaScorer.bestPerm, MaScorer.pickMax,
      MaScorer.permTotal, MaScorer.pairScoreTotal, MaScorer.squareEntry,
      MaScorer.entryOf, MaScorer.mapPairsToIds, Scorer.f1,
      List.permutations', List.permutations'Aux, List.range_succ])
  exact ⟨h.1, h.2.2.2.1⟩

/-- C3 (code bug): `CaseCountScorer.score` produces the contracted keys, but
`MaScorer.score` is an unimplemented stub — for every input it returns an
empty mapping containing none of the required keys (`Matches`,
`Unmatched Warnings`, `Unmatched GSR`, `Results` with `F1`, `Details`),
contrary to the output contract. -/
theorem claim_C3_bug : ∀ (w : List MaWarn) (g : List MaEvent),
    MaScorer.score w g = []
    ∧ "Matches" ∉ (MaScorer.score w g).map Prod.fst := by
  intro w g
  exact ⟨rfl, by simp [MaScorer.score]⟩

/-- C10: calling `MaScorer.score_one` with all four weights 0 (each
non-negative, so no negative-weight error is recorded) makes the weight sum
0 and different from 4.0, so the renormalization step divides by zero and
the call fails with a division-by-zero error instead of returning a per-pair
result or an error entry. -/
theorem claim_C10 (geod : ℚ → ℚ → ℚ → ℚ → ℚ) (warn_ : MaWarn)
    (event_ : MaEvent) (max_dist dist_buffer max_date_diff : ℚ)
    (legit_actors wildcards : List String) :
    MaScorer.score_one geod warn_ event_ max_dist dist_buffer max_date_diff
      legit_actors wildcards 0 0 0 0 = .error "division by zero" := by
  simp only [MaScorer.score_one]
  norm_num

/-- C6: `CaseCountScorer.quality_score` returns
`1 - |predicted - actual| / max(predicted, actual, accuracy_denominator)`
whenever both counts are non-negative and the denominator is positive — in
particular 1.0 at (5, 5, 4) and 0.75 at (0, 1, 4) — and fails by reporting
an error without raising, producing no score value (`none`), on a negative
count or a non-positive accuracy denominator. -/
theorem claim_C6 :
    (∀ p a d : ℚ, 0 ≤ p → 0 ≤ a → 0 < d →
      CaseCountScorer.quality_score p a d
        = some (1 - |p - a| / max p (max a d)))
    ∧ CaseCountScorer.quality_score 5 5 4 = some 1
    ∧ CaseCountScorer.quality_score 0 1 4 = some (3/4)
    ∧ (∀ p a d : ℚ, p < 0 ∨ a < 0 ∨ d ≤ 0 →
      CaseCountScorer.quality_score p a d = none) := by
  refine ⟨?_, ?_, ?_, ?_⟩
  · intro p a d hp ha hd
    unfold CaseCountScorer.quality_score
    rw [if_neg (by push_neg; exact ⟨hp, ha⟩), if_neg (not_le.mpr hd)]
  · norm_num [CaseCountScorer.quality_score]
  · norm_num [CaseCountScorer.quality_score]
  · intro p a d h
    unfold CaseCountScorer.quality_score
    rcases h with h | h | h
    · rw [if_pos (Or.inl h)]
    · rw [if_pos (Or.inr h)]
    · by_cases h2 : p < 0 ∨ a < 0
      · rw [if_pos h2]
      · rw [if_neg h2, if_pos h]

/-- Witness for C6 at concrete inputs: an admissible pair scores by the
relative-error formula, and a negative count produces no score. -/
theorem claim_C6_witness :
    CaseCountScorer.quality_score 2 3 4 = some (1 - |2 - 3| / max 2 (max 3 4))
    ∧ CaseCountScorer.quality_score (-1) 0 4 = none :=
  ⟨claim_C6.1 2 3 4 (by norm_num) (by norm_num) (by norm_num),
   claim_C6.2.2.2 (-1) 0 4 (Or.inl (by norm_num))⟩

/-- C7 (code bug): when the configured scope filter leaves zero in-scope
warnings (first conjunct) or zero in-scope events (second conjunct),
`CaseCountScorer.score` does not return a well-defined empty/zero result:
computing Precision (resp. Recall) divides the match count by zero and the
call fails with a `ZeroDivisionError`. -/
theorem claim_C7_bug :
    CaseCountScorer.score cfgJO [ccwOut] [cceIn] = .error "division by zero"
    ∧ CaseCountScorer.score cfgJO [ccwIn] [cceOut]
      = .error "division by zero" := by
  constructor <;> rfl

namespace MaScorer

theorem slope_score_ok_bounds {res a b v : ℚ}
    (h : Scorer.slope_score res a b = .ok v) : 0 ≤ v ∧ v ≤ 1 := by
  simp only [Scorer.slope_score] at h
  by_cases h1 : a = b
  · rw [if_pos h1] at h
    cases h
  · rw [if_neg h1] at h
    by_cases h2 : b < a
    · rw [if_pos h2] at h
      cases h
    · rw [if_neg h2] at h
      have hab : a < b := lt_of_le_of_ne (le_of_not_lt h2) h1
      have hok := Except.ok.inj h
      have hxa : a ≤ max (min res b) a := le_max_right _ _
      have hxb : max (min res b) a ≤ b :=
        max_le (min_le_right _ _) (le_of_lt hab)
      have hfrac0 : 0 ≤ (max (min res b) a - a) / (b - a) :=
        div_nonneg (by linarith) (by linarith)
      have hfrac1 : (max (min res b) a - a) / (b - a) ≤ 1 := by
        rw [div_le_one (by linarith)]
        linarith
      constructor
      · rw [← hok]
        linarith
      · rw [← hok]
        linarith

theorem location_score_ok_bounds {dk : ℚ} {ia : Bool} {md db v : ℚ}
    (h : location_score dk ia md db = .ok v) : 0 ≤ v ∧ v ≤ 1 :=
  slope_score_ok_bounds h

theorem date_score_ok_bounds {dd : ℤ} {mdd v : ℚ}
    (h : Scorer.date_score dd mdd = .ok v) : 0 ≤ v ∧ v ≤ 1 :=
  slope_score_ok_bounds h

theorem weightErrors_ne_nil {lw dw aw ew : ℚ}
    (h : lw < 0 ∨ dw < 0 ∨ aw < 0 ∨ ew < 0) :
    weightErrors lw dw aw ew ≠ [] := by
  intro hnil
  unfold weightErrors at hnil
  rcases h with h | h | h | h <;> simp [h] at hnil

theorem score_one_eval_err {geod : ℚ → ℚ → ℚ → ℚ → ℚ} {warn_ : MaWarn}
    {event_ : MaEvent} {max_dist dist_buffer max_date_diff : ℚ}
    {legit_actors wildcards : List String} {lw dw aw ew : ℚ}
    (hsum : lw + dw + aw + ew ≠ 0) (herr : weightErrors lw dw aw ew ≠ []) :
    score_one geod warn_ event_ max_dist dist_buffer max_date_diff
      legit_actors wildcards lw dw aw ew
      = .ok { warningId := warn_.wid, eventId := event_.eid,
              errors := weightErrors lw dw aw ew,
              notices := if lw + dw + aw + ew = 4 then []
                else ["Reweighting so that sum of weights is 4.0"] } := by
  simp only [score_one]
  rw [if_neg (fun hand => hsum hand.2), if_pos herr]

theorem score_one_err_ls {geod : ℚ → ℚ → ℚ → ℚ → ℚ} {warn_ : MaWarn}
    {event_ : MaEvent} {max_dist dist_buffer max_date_diff : ℚ}
    {legit_actors wildcards : List String} {lw dw aw ew : ℚ} {s : String}
    (hsum : lw + dw + aw + ew ≠ 0) (herr : weightErrors lw dw aw ew = [])
    (hls : location_score
      (geod warn_.latitude warn_.longitude event_.latitude event_.longitude)
      event_.approximate_location max_dist dist_buffer = .error s) :
    score_one geod warn_ event_ max_dist dist_buffer max_date_diff
      legit_actors wildcards lw dw aw ew = .error s := by
  simp only [score_one]
  rw [if_neg (fun hand => hsum hand.2), if_neg (fun h => h herr), hls]

theorem score_one_err_ds {geod : ℚ → ℚ → ℚ → ℚ → ℚ} {warn_ : MaWarn}
    {event_ : MaEvent} {max_dist dist_buffer max_date_diff : ℚ}
    {legit_actors wildcards : List String} {lw dw aw ew : ℚ} {lsv : ℚ}
    {s : String}
    (hsum : lw + dw + aw + ew ≠ 0) (herr : weightErrors lw dw aw ew = [])
    (hls : location_score
      (geod warn_.latitude warn_.longitude event_.latitude event_.longitude)
      event_.approximate_location max_dist dist_buffer = .ok lsv)
    (hds : Scorer.date_score
      (Scorer.date_diff warn_.event_date event_.event_date) max_date_diff
      = .error s) :
    score_one geod warn_ event_ max_dist dist_buffer max_date_diff
      legit_actors wildcards lw dw aw ew = .error s := by
  simp only [score_one]
  rw [if_neg (fun hand => hsum hand.2), if_neg (fun h => h herr), hls, hds]

theorem score_one_eval {geod : ℚ → ℚ → ℚ → ℚ → ℚ} {warn_ : MaWarn}
    {event_ : MaEvent} {max_dist dist_buffer max_date_diff : ℚ}
    {legit_actors wildcards : List String} {lw dw aw ew : ℚ} {lsv dsv : ℚ}
    (hsum : lw + dw + aw + ew ≠ 0) (herr : weightErrors lw dw aw ew = [])
    (hls : location_score
      (geod warn_.latitude warn_.longitude event_.latitude event_.longitude)
      event_.approximate_location max_dist dist_buffer = .ok lsv)
    (hds : Scorer.date_score
      (Scorer.date_diff warn_.event_date event_.event_date) max_date_diff
      = .ok dsv) :
    score_one geod warn_ event_ max_dist dist_buffer max_date_diff
      legit_actors wildcards lw dw aw ew
      = .ok { warningId := warn_.wid, eventId := event_.eid,
              approximateLocation := some event_.approximate_location,
              distanceKm := some (geod warn_.latitude warn_.longitude
                event_.latitude event_.longitude),
              dateDifference := some |event_.event_date - warn_.event_date|,
              ls := some lsv, ds := some dsv,
              ess := some (event_subtype_score warn_.subtype event_.subtype),
              asScore := some (actor_score warn_.actor event_.actor
                legit_actors wildcards),
              qs := some (if min lsv dsv = 0 then 0
                else (reweight lw dw aw ew).1 * lsv
                  + (reweight lw dw aw ew).2.1 * dsv
                  + (reweight lw dw aw ew).2.2.1
                    * actor_score warn_.actor event_.actor
                      legit_actors wildcards
                  + (reweight lw dw aw ew).2.2.2
                    * event_subtype_score warn_.subtype event_.subtype),
              errors := [], notices := if lw + dw + aw + ew = 4 then []
                else ["Reweighting so that sum of weights is 4.0"] } := by
  simp only [score_one]
  rw [if_neg (fun hand => hsum hand.2), if_neg (fun h => h herr), hls, hds]

end MaScorer

/-- C4: with valid (non-negative, positive-sum) weights, whenever
`MaScorer.score_one` returns a per-pair result carrying component scores,
the Quality Score is 0 when the Location Score or the Date Score is exactly
0 — regardless of the Actor and Event-Subtype scores and of the weights —
and otherwise equals the weighted sum of the four component scores under the
(possibly renormalized) weights. -/
theorem claim_C4 (geod : ℚ → ℚ → ℚ → ℚ → ℚ) (warn_ : MaWarn)
    (event_ : MaEvent) (max_dist dist_buffer max_date_diff : ℚ)
    (legit_actors wildcards : List String) (lw dw aw ew : ℚ)
    (r : MaScorer.ScoreOneResult) (l d a e : ℚ)
    (h1 : 0 ≤ lw) (h2 : 0 ≤ dw) (h3 : 0 ≤ aw) (h4 : 0 ≤ ew)
    (h5 : 0 < lw + dw + aw + ew)
    (hok : MaScorer.score_one geod warn_ event_ max_dist dist_buffer
      max_date_diff legit_actors wildcards lw dw aw ew = .ok r)
    (hl : r.ls = some l) (hd : r.ds = some d)
    (ha : r.asScore = some a) (he : r.ess = some e) :
    r.qs = some (if l = 0 ∨ d = 0 then 0
      else (MaScorer.reweight lw dw aw ew).1 * l
        + (MaScorer.reweight lw dw aw ew).2.1 * d
        + (MaScorer.reweight lw dw aw ew).2.2.1 * a
        + (MaScorer.reweight lw dw aw ew).2.2.2 * e) := by
  have hsum : lw + dw + aw + ew ≠ 0 := ne_of_gt h5
  have herr : MaScorer.weightErrors lw dw aw ew = [] := by
    unfold MaScorer.weightErrors
    rw [if_neg (not_lt.mpr h1), if_neg (not_lt.mpr h2),
      if_neg (not_lt.mpr h3), if_neg (not_lt.mpr h4)]
    rfl
  cases hls : MaScorer.location_score
      (geod warn_.latitude warn_.longitude event_.latitude event_.longitude)
      event_.approximate_location max_dist dist_buffer with
  | error s =>
    rw [MaScorer.score_one_err_ls hsum herr hls] at hok
    simp at hok
  | ok lsv =>
    cases hds : Scorer.date_score
        (Scorer.date_diff warn_.event_date event_.event_date)
        max_date_diff with
    | error s =>
      rw [MaScorer.score_one_err_ds hsum herr hls hds] at hok
      simp at hok
    | ok dsv =>
      rw [MaScorer.score_one_eval hsum herr hls hds] at hok
      have hr := Except.ok.inj hok
      rw [← hr] at hl hd ha he ⊢
      have hll := Option.some.inj hl
      have hdd := Option.some.inj hd
      have haa := Option.some.inj ha
      have hee := Option.some.inj he
      subst hll hdd haa hee
      have hlb := (MaScorer.location_score_ok_bounds hls).1
      have hdb := (MaScorer.date_score_ok_bounds hds).1
      have hiff : (min lsv dsv = 0) ↔ (lsv = 0 ∨ dsv = 0) := by
        constructor
        · intro hm
          rcases min_choice lsv dsv with hc | hc
          · left
            rw [← hc]
            exact hm
          · right
            rw [← hc]
            exact hm
        · intro hor
          rcases hor with h0 | h0
          · rw [h0]
            exact min_eq_left hdb
          · rw [h0]
            exact min_eq_right hlb
      show some (if min lsv dsv = 0 then (0 : ℚ) else _) = _
      by_cases hb : lsv = 0 ∨ dsv = 0
      · rw [if_pos (hiff.mpr hb), if_pos hb]
      · rw [if_neg (fun hc => hb (hiff.mp hc)), if_neg hb]

/-- Witness for C4: the perfect pair with unit weights instantiates the
claim; its Quality Score is the weighted sum 4. -/
theorem claim_C4_witness :
    (MaScorer.ScoreOneResult.mk 1 2 (some false) (some 0) (some 0) (some 1)
        (some 1) (some 1) (some 1) (some 4) [] []).qs
      = some (if (1 : ℚ) = 0 ∨ (1 : ℚ) = 0 then 0
        else (MaScorer.reweight 1 1 1 1).1 * 1
          + (MaScorer.reweight 1 1 1 1).2.1 * 1
          + (MaScorer.reweight 1 1 1 1).2.2.1 * 1
          + (MaScorer.reweight 1 1 1 1).2.2.2 * 1) :=
  claim_C4 geod0 wP eP 100 (50/3) 4 MaScorer.ACTORS MaScorer.WILDCARD_ACTORS
    1 1 1 1 _ 1 1 1 1 (by norm_num) (by norm_num) (by norm_num) (by norm_num)
    (by norm_num)
    (by norm_num [MaScorer.score_one, MaScorer.weightErrors, MaScorer.reweight,
      MaScorer.location_score, MaScorer.actor_score,
      MaScorer.event_subtype_score, Scorer.slope_score, Scorer.date_score,
      Scorer.date_diff, Scorer.facet_score, MaScorer.ACTORS,
      MaScorer.STATE_ACTORS, MaScorer.WILDCARD_ACTORS, MaScorer.SUBTYPES,
      geod0, wP, eP, min_def, max_def, List.inter])
    rfl rfl rfl rfl

/-- C5 (counterexample): with weights (-1, -1, 1, 1), two of which are
negative, the weight sum is 0; the renormalization step (which runs before
the negative-weight bailout) divides by zero and `score_one` fails outright
instead of returning a per-pair result carrying an error entry, refuting the
claim as stated. -/
theorem claim_C5_counterexample :
    MaScorer.score_one geod0 wP eP 100 (50/3) 4 MaScorer.ACTORS
      MaScorer.WILDCARD_ACTORS (-1) (-1) 1 1 = .error "division by zero" := by
  simp only [MaScorer.score_one]
  norm_num

/-- C5 (amended): provided the four weights do not sum to 0 (with a zero sum
the renormalization divides by zero and the call fails — see the
counterexample), any negative weight yields a result carrying only the
weight error entries and no score; the renormalized weights always sum to
4.0 and preserve the original ratios — in particular (2, 1, 1, 1) rescales
to (1.6, 0.8, 0.8, 0.8) — and a notice is attached to any returned result
exactly when the weights did not already sum to 4.0. -/
theorem claim_C5_amended :
    (∀ (geod : ℚ → ℚ → ℚ → ℚ → ℚ) (warn_ : MaWarn) (event_ : MaEvent)
      (max_dist dist_buffer max_date_diff : ℚ)
      (legit_actors wildcards : List String) (lw dw aw ew : ℚ),
      lw + dw + aw + ew ≠ 0 → (lw < 0 ∨ dw < 0 ∨ aw < 0 ∨ ew < 0) →
      MaScorer.score_one geod warn_ event_ max_dist dist_buffer max_date_diff
        legit_actors wildcards lw dw aw ew
        = .ok { warningId := warn_.wid, eventId := event_.eid,
                errors := MaScorer.weightErrors lw dw aw ew,
                notices := if lw + dw + aw + ew = 4 then []
                  else ["Reweighting so that sum of weights is 4.0"] })
    ∧ (∀ lw dw aw ew : ℚ, lw + dw + aw + ew ≠ 0 →
        (MaScorer.reweight lw dw aw ew).1 + (MaScorer.reweight lw dw aw ew).2.1
          + (MaScorer.reweight lw dw aw ew).2.2.1
          + (MaScorer.reweight lw dw aw ew).2.2.2 = 4)
    ∧ (∀ lw dw aw ew : ℚ,
        (MaScorer.reweight lw dw aw ew).1 * dw
            = (MaScorer.reweight lw dw aw ew).2.1 * lw
        ∧ (MaScorer.reweight lw dw aw ew).2.1 * aw
            = (MaScorer.reweight lw dw aw ew).2.2.1 * dw
        ∧ (MaScorer.reweight lw dw aw ew).2.2.1 * ew
            = (MaScorer.reweight lw dw aw ew).2.2.2 * aw)
    ∧ MaScorer.reweight 2 1 1 1 = (8/5, 4/5, 4/5, 4/5)
    ∧ (∀ (geod : ℚ → ℚ → ℚ → ℚ → ℚ) (warn_ : MaWarn) (event_ : MaEvent)
        (max_dist dist_buffer max_date_diff : ℚ)
        (legit_actors wildcards : List String) (lw dw aw ew : ℚ)
        (r : MaScorer.ScoreOneResult),
        MaScorer.score_one geod warn_ event_ max_dist dist_buffer
          max_date_diff legit_actors wildcards lw dw aw ew = .ok r →
        (r.notices ≠ [] ↔ lw + dw + aw + ew ≠ 4)) := by
  refine ⟨?_, ?_, ?_, ?_, ?_⟩
  · intro geod warn_ event_ md db mdd la wc lw dw aw ew hsum hneg
    exact MaScorer.score_one_eval_err hsum (MaScorer.weightErrors_ne_nil hneg)
  · intro lw dw aw ew hs
    unfold MaScorer.reweight
    by_cases h4 : lw + dw + aw + ew = 4
    · rw [if_pos h4]
      exact h4
    · rw [if_neg h4]
      field_simp
      ring
  · intro lw dw aw ew
    unfold MaScorer.reweight
    by_cases h4 : lw + dw + aw + ew = 4
    · rw [if_pos h4]
      exact ⟨mul_comm lw dw, mul_comm dw aw, mul_comm aw ew⟩
    · rw [if_neg h4]
      refine ⟨?_, ?_, ?_⟩ <;> ring
  · norm_num [MaScorer.reweight]
  · intro geod warn_ event_ md db mdd la wc lw dw aw ew r hok
    by_cases hz : lw + dw + aw + ew ≠ 4 ∧ lw + dw + aw + ew = 0
    · simp only [MaScorer.score_one] at hok
      rw [if_pos hz] at hok
      simp at hok
    · have hsum : lw + dw + aw + ew ≠ 0 := by
        intro h0
        exact hz ⟨by rw [h0]; norm_num, h0⟩
      by_cases herr : MaScorer.weightErrors lw dw aw ew = []
      · cases hls : MaScorer.location_score
            (geod warn_.latitude warn_.longitude event_.latitude
              event_.longitude)
            event_.approximate_location md db with
        | error s =>
          rw [MaScorer.score_one_err_ls hsum herr hls] at hok
          simp at hok
        | ok lsv =>
          cases hds : Scorer.date_score
              (Scorer.date_diff warn_.event_date event_.event_date) mdd with
          | error s =>
            rw [MaScorer.score_one_err_ds hsum herr hls hds] at hok
            simp at hok
          | ok dsv =>
            rw [MaScorer.score_one_eval hsum herr hls hds] at hok
            have hr := Except.ok.inj hok
            rw [← hr]
            by_cases h4 : lw + dw + aw + ew = 4 <;> simp [h4]
      · rw [MaScorer.score_one_eval_err hsum herr] at hok
        have hr := Except.ok.inj hok
        rw [← hr]
        by_cases h4 : lw + dw + aw + ew = 4 <;> simp [h4]

/-- Witness for C5 (amended): weight vector (-1, 0, 2, 1) has a negative
entry and nonzero sum 2; the call returns a result carrying the error
entries and the reweighting notice. -/
theorem claim_C5_witness :
    MaScorer.score_one geod0 wP eP 100 (50/3) 4 MaScorer.ACTORS
      MaScorer.WILDCARD_ACTORS (-1) 0 2 1
      = .ok { warningId := wP.wid, eventId := eP.eid,
              errors := MaScorer.weightErrors (-1) 0 2 1,
              notices := if (-1 : ℚ) + 0 + 2 + 1 = 4 then []
                else ["Reweighting so that sum of weights is 4.0"] } :=
  claim_C5_amended.1 geod0 wP eP 100 (50/3) 4 MaScorer.ACTORS
    MaScorer.WILDCARD_ACTORS (-1) 0 2 1 (by norm_num) (Or.inl (by norm_num))

/-- C8 (counterexample): for the perfect single pair — geodesic distance
0 km, equal dates, legitimate actor equal to the GSR actor, legitimate
subtype equal to the GSR subtype, default weights 1.0 — the per-pair
Quality Score computed by the Multi-Facet scorer is 4.0, not 1.0, and
`MaScorer.score` returns an empty mapping with no Precision/Recall/F1
entries at all. -/
theorem claim_C8_counterexample :
    MaScorer.score_one geod0 wP eP 100 (50/3) 4 MaScorer.ACTORS
      MaScorer.WILDCARD_ACTORS 1 1 1 1
      = .ok ⟨1, 2, some false, some 0, some 0, some 1, some 1, some 1,
          some 1, some 4, [], []⟩
    ∧ (4 : ℚ) ≠ 1
    ∧ MaScorer.score [wP] [eP] = [] := by
  refine ⟨?_, by norm_num, rfl⟩
  norm_num [MaScorer.score_one, MaScorer.weightErrors, MaScorer.reweight,
    MaScorer.location_score, MaScorer.actor_score,
    MaScorer.event_subtype_score, Scorer.slope_score, Scorer.date_score,
    Scorer.date_diff, Scorer.facet_score, MaScorer.ACTORS,
    MaScorer.STATE_ACTORS, MaScorer.WILDCARD_ACTORS, MaScorer.SUBTYPES,
    geod0, wP, eP, min_def, max_def, List.inter]

/-- C8 (amended): for the perfect single pair the per-pair Quality Score is
4.0 — the pre-normalization maximum, four perfect component scores under
unit weights — and the Assignment Solver applied to the resulting 1×1 score
matrix [[4.0]] returns the single pair as a match with
Precision = Recall = F1 = 1.0 (while `MaScorer.score` itself is a stub
returning an empty mapping — see the counterexample). -/
theorem claim_C8_amended :
    MaScorer.score_one geod0 wP eP 100 (50/3) 4 MaScorer.ACTORS
      MaScorer.WILDCARD_ACTORS 1 1 1 1
      = .ok ⟨wP.wid, eP.eid, some false, some 0, some 0, some 1, some 1,
          some 1, some 1, some 4, [], []⟩
    ∧ MaScorer.matchWE [wP.wid] [eP.eid] [[4]] false
      = .ok ⟨[(wP.wid, eP.eid)], [4], 4, 1, 1, 1⟩ := by
  constructor
  · norm_num [MaScorer.score_one, MaScorer.weightErrors, MaScorer.reweight,
      MaScorer.location_score, MaScorer.actor_score,
      MaScorer.event_subtype_score, Scorer.slope_score, Scorer.date_score,
      Scorer.date_diff, Scorer.facet_score, MaScorer.ACTORS,
      MaScorer.STATE_ACTORS, MaScorer.WILDCARD_ACTORS, MaScorer.SUBTYPES,
      geod0, wP, eP, min_def, max_def, List.inter]
  · norm_num [MaScorer.matchWE, MaScorer.matMax, MaScorer.keptPairs,
      MaScorer.assignPairs, MaScorer.bestPerm, MaScorer.pickMax,
      MaScorer.permTotal, MaScorer.pairScoreTotal, MaScorer.squareEntry,
      MaScorer.entryOf, MaScorer.mapPairsToIds, Scorer.f1, wP, eP,
      List.permutations', List.permutations'Aux, List.range_succ]

namespace CaseCountScorer

theorem nodup_of_length_le_one {α : Type} {l : List α} (h : l.length ≤ 1) :
    l.Nodup := by
  cases l with
  | nil => exact List.nodup_nil
  | cons x xs =>
    cases xs with
    | nil => simp
    | cons y ys => simp at h

theorem filter_date_len_le {es : List CCRecord}
    (hed : (es.map (fun r => r.event_date)).Nodup) (d : ℤ) :
    (es.filter fun e => e.event_date == d).length ≤ 1 := by
  induction es with
  | nil => simp
  | cons e rest ih =>
    rw [List.map_cons, List.nodup_cons] at hed
    by_cases h : e.event_date = d
    · rw [List.filter_cons_of_pos (by simp [h])]
      have hnil : (rest.filter fun e2 => e2.event_date == d) = [] := by
        apply List.filter_eq_nil_iff.mpr
        intro e2 he2
        simp only [beq_iff_eq]
        intro hcon
        apply hed.1
        rw [h, ← hcon]
        exact List.mem_map_of_mem _ he2
      rw [hnil]
      simp
    · rw [List.filter_cons_of_neg (by simp [h])]
      exact ih hed.2

theorem filterMap_matched_pairs (w : CCRecord) (l : List CCRecord) :
    (l.map fun e => ((some w : Option CCRecord), some e)).filterMap (fun r =>
      match r with
      | (some w2, some e) => some (w2.rid, e.rid)
      | _ => none)
    = l.map fun e => (w.rid, e.rid) := by
  induction l with
  | nil => rfl
  | cons e rest ih =>
    simp only [List.map_cons, List.filterMap_cons]
    rw [ih]

theorem filterMap_uw_pairs (w : CCRecord) (l : List CCRecord) :
    (l.map fun e => ((some w : Option CCRecord), some e)).filterMap (fun r =>
      match r with
      | (some w2, none) => some w2.rid
      | _ => none) = [] := by
  induction l with
  | nil => rfl
  | cons e rest ih =>
    simp only [List.map_cons, List.filterMap_cons]
    exact ih

theorem joinRows_filterMap_matched (ws es : List CCRecord) :
    (joinRows ws es).filterMap (fun r =>
      match r with
      | (some w, some e) => some (w.rid, e.rid)
      | _ => none)
    = ws.flatMap fun w =>
        (es.filter fun e => e.event_date == w.event_date).map
          fun e => (w.rid, e.rid) := by
  unfold joinRows
  rw [List.filterMap_append]
  have h2 : ((es.filter fun e =>
      ws.all fun w2 => !(w2.event_date == e.event_date)).map
        (fun e => ((none : Option CCRecord), some e))).filterMap (fun r =>
          match r with
          | (some w, some e) => some (w.rid, e.rid)
          | _ => none) = [] := by
    rw [List.filterMap_map]
    apply List.filterMap_eq_nil_iff.mpr
    intro a _
    rfl
  rw [h2, List.append_nil]
  clear h2
  induction ws with
  | nil => rfl
  | cons w rest ih =>
    rw [List.flatMap_cons, List.flatMap_cons, List.filterMap_append, ih]
    congr 1
    cases hf : es.filter fun e => e.event_date == w.event_date with
    | nil => rfl
    | cons e0 erest => exact filterMap_matched_pairs w (e0 :: erest)

theorem joinRows_filterMap_uw (ws es : List CCRecord) :
    (joinRows ws es).filterMap (fun r =>
      match r with
      | (some w, none) => some w.rid
      | _ => none)
    = ws.flatMap fun w =>
        if (es.filter fun e => e.event_date == w.event_date) = [] then [w.rid]
        else [] := by
  unfold joinRows
  rw [List.filterMap_append]
  have h2 : ((es.filter fun e =>
      ws.all fun w2 => !(w2.event_date == e.event_date)).map
        (fun e => ((none : Option CCRecord), some e))).filterMap (fun r =>
          match r with
          | (some w, none) => some w.rid
          | _ => none) = [] := by
    rw [List.filterMap_map]
    apply List.filterMap_eq_nil_iff.mpr
    intro a _
    rfl
  rw [h2, List.append_nil]
  clear h2
  induction ws with
  | nil => rfl
  | cons w rest ih =>
    rw [List.flatMap_cons, List.flatMap_cons, List.filterMap_append, ih]
    congr 1
    cases hf : es.filter fun e => e.event_date == w.event_date with
    | nil => rw [if_pos rfl]; rfl
    | cons e0 erest =>
      rw [if_neg (by simp)]
      exact filterMap_uw_pairs w (e0 :: erest)

theorem joinRows_filterMap_ug (ws es : List CCRecord) :
    (joinRows ws es).filterMap (fun r =>
      match r with
      | (none, some e) => some e.rid
      | _ => none)
    = (es.filter fun e =>
        ws.all fun w => !(w.event_date == e.event_date)).map
          fun e => e.rid := by
  unfold joinRows
  rw [List.filterMap_append]
  have h1 : (ws.flatMap fun w =>
      match es.filter fun e => e.event_date == w.event_date with
      | [] => [((some w : Option CCRecord), (none : Option CCRecord))]
      | e0 :: rest => (e0 :: rest).map fun e => (some w, some e)).filterMap
        (fun r =>
          match r with
          | (none, some e) => some e.rid
          | _ => none) = [] := by
    apply List.filterMap_eq_nil_iff.mpr
    intro r hr
    obtain ⟨w, hw, hrw⟩ := List.mem_flatMap.mp hr
    cases hf : es.filter fun e => e.event_date == w.event_date with
    | nil =>
      rw [hf] at hrw
      rcases List.mem_singleton.mp hrw with rfl
      rfl
    | cons e0 erest =>
      rw [hf] at hrw
      obtain ⟨e, _, rfl⟩ := List.mem_map.mp hrw
      rfl
  rw [h1, List.nil_append, List.filterMap_map]
  induction (es.filter fun e =>
      ws.all fun w => !(w.event_date == e.event_date)) with
  | nil => rfl
  | cons e rest ih =>
    rw [List.map_cons, ← ih]
    rfl

end CaseCountScorer

namespace CaseCountScorer

theorem matches_map_fst (ws es : List CCRecord) :
    ((ws.flatMap fun w =>
        (es.filter fun e => e.event_date == w.event_date).map
          fun e => (w.rid, e.rid)).map Prod.fst)
    = ws.flatMap fun w =>
        (es.filter fun e => e.event_date == w.event_date).map
          fun _ => w.rid := by
  rw [List.map_flatMap]
  refine congrArg _ ?_
  funext w
  rw [List.map_map]
  rfl

theorem matches_map_snd (ws es : List CCRecord) :
    ((ws.flatMap fun w =>
        (es.filter fun e => e.event_date == w.event_date).map
          fun e => (w.rid, e.rid)).map Prod.snd)
    = ws.flatMap fun w =>
        (es.filter fun e => e.event_date == w.event_date).map
          fun e => e.rid := by
  rw [List.map_flatMap]
  refine congrArg _ ?_
  funext w
  rw [List.map_map]
  rfl

theorem matches_uw_nodup (ws es : List CCRecord)
    (hed : (es.map fun r => r.event_date).Nodup)
    (hwi : (ws.map fun r => r.rid).Nodup) :
    (((ws.flatMap fun w =>
        (es.filter fun e => e.event_date == w.event_date).map
          fun e => (w.rid, e.rid)).map Prod.fst)
      ++ (ws.flatMap fun w =>
        if (es.filter fun e => e.event_date == w.event_date) = []
        then [w.rid] else [])).Nodup := by
  rw [matches_map_fst]
  have hwnd : ws.Nodup := List.Nodup.of_map _ hwi
  apply List.Nodup.append
  · rw [List.nodup_flatMap]
    constructor
    · intro w _
      apply nodup_of_length_le_one
      rw [List.length_map]
      exact filter_date_len_le hed _
    · refine List.Pairwise.imp_of_mem ?_ hwnd
      intro a b ha hb hne x hxa hxb
      obtain ⟨e1, _, h1⟩ := List.mem_map.mp hxa
      obtain ⟨e2, _, h2⟩ := List.mem_map.mp hxb
      exact hne (List.inj_on_of_nodup_map hwi ha hb (by rw [h1, h2]))
  · rw [List.nodup_flatMap]
    constructor
    · intro w _
      by_cases h : (es.filter fun e => e.event_date == w.event_date) = []
      · rw [if_pos h]
        simp
      · rw [if_neg h]
        simp
    · refine List.Pairwise.imp_of_mem ?_ hwnd
      intro a b ha hb hne x hxa hxb
      have hxa2 : x ∈ (if (es.filter fun e =>
          e.event_date == a.event_date) = [] then [a.rid] else []) := hxa
      have hxb2 : x ∈ (if (es.filter fun e =>
          e.event_date == b.event_date) = [] then [b.rid] else []) := hxb
      have hxa' : x = a.rid := by
        by_cases h : (es.filter fun e => e.event_date == a.event_date) = []
        · rw [if_pos h] at hxa2
          exact List.mem_singleton.mp hxa2
        · rw [if_neg h] at hxa2
          cases hxa2
      have hxb' : x = b.rid := by
        by_cases h : (es.filter fun e => e.event_date == b.event_date) = []
        · rw [if_pos h] at hxb2
          exact List.mem_singleton.mp hxb2
        · rw [if_neg h] at hxb2
          cases hxb2
      exact hne (List.inj_on_of_nodup_map hwi ha hb (by rw [← hxa', ← hxb']))
  · intro x hxA hxB
    obtain ⟨w1, hw1, hx1⟩ := List.mem_flatMap.mp hxA
    obtain ⟨w2, hw2, hx2⟩ := List.mem_flatMap.mp hxB
    obtain ⟨e1, he1, hh1⟩ := List.mem_map.mp hx1
    have hx22 : x ∈ (if (es.filter fun e =>
        e.event_date == w2.event_date) = [] then [w2.rid] else []) := hx2
    by_cases h : (es.filter fun e => e.event_date == w2.event_date) = []
    · rw [if_pos h] at hx22
      have hx2' := List.mem_singleton.mp hx22
      have h12 : w1 = w2 :=
        List.inj_on_of_nodup_map hwi hw1 hw2 (by rw [hh1, hx2'])
      rw [h12, h] at he1
      cases he1
    · rw [if_neg h] at hx22
      cases hx22

theorem matches_ug_nodup (ws es : List CCRecord)
    (hwd : (ws.map fun r => r.event_date).Nodup)
    (hei : (es.map fun r => r.rid).Nodup) :
    (((ws.flatMap fun w =>
        (es.filter fun e => e.event_date == w.event_date).map
          fun e => (w.rid, e.rid)).map Prod.snd)
      ++ (es.filter fun e =>
          ws.all fun w => !(w.event_date == e.event_date)).map
            fun e => e.rid).Nodup := by
  rw [matches_map_snd]
  have hwnd : ws.Nodup := List.Nodup.of_map _ hwd
  apply List.Nodup.append
  · rw [List.nodup_flatMap]
    constructor
    · intro w _
      have hsub : ((es.filter fun e => e.event_date == w.event_date).map
          fun r => r.rid).Sublist (es.map fun r => r.rid) :=
        (List.filter_sublist _).map _
      exact hsub.nodup hei
    · refine List.Pairwise.imp_of_mem ?_ hwnd
      intro a b ha hb hne x hxa hxb
      obtain ⟨e1, he1, h1⟩ := List.mem_map.mp hxa
      obtain ⟨e2, he2, h2⟩ := List.mem_map.mp hxb
      have he1f := List.mem_filter.mp he1
      have he2f := List.mem_filter.mp he2
      have hee : e1 = e2 :=
        List.inj_on_of_nodup_map hei he1f.1 he2f.1 (by rw [h1, h2])
      apply hne
      apply List.inj_on_of_nodup_map hwd ha hb
      have hd1 : e1.event_date = a.event_date := by simpa using he1f.2
      have hd2 : e2.event_date = b.event_date := by simpa using he2f.2
      show a.event_date = b.event_date
      rw [← hd1, ← hd2, hee]
  · have hsub : ((es.filter fun e =>
        ws.all fun w => !(w.event_date == e.event_date)).map
          fun e => e.rid).Sublist (es.map fun r => r.rid) :=
      (List.filter_sublist _).map _
    exact hsub.nodup hei
  · intro x hxA hxB
    obtain ⟨w, hw, hx1⟩ := List.mem_flatMap.mp hxA
    obtain ⟨e1, he1, h1⟩ := List.mem_map.mp hx1
    obtain ⟨e2, he2, h2⟩ := List.mem_map.mp hxB
    have he1f := List.mem_filter.mp he1
    have he2f := List.mem_filter.mp he2
    have hee : e1 = e2 :=
      List.inj_on_of_nodup_map hei he1f.1 he2f.1 (by rw [h1, h2])
    have hall := List.all_eq_true.mp he2f.2 w hw
    rw [← hee] at hall
    have hd1 : e1.event_date = w.event_date := by simpa using he1f.2
    simp [hd1] at hall

end CaseCountScorer

/-- C9 (counterexample): the date-uniqueness precondition alone does not give
the disjointness invariant.  Warnings `ccwA` and `ccwB` share the identifier
1 but have distinct dates (so at most one in-scope warning and one in-scope
event share any date); `ccwA` matches event 100 while `ccwB` is unmatched,
so identifier 1 appears both in a matched pair and in the unmatched warning
list. -/
theorem claim_C9_counterexample :
    ((([ccwA, ccwB].filter (CaseCountScorer.inScope cfgJO)).map
        (fun r => r.event_date)).Nodup
      ∧ (([cceA].filter (CaseCountScorer.inScope cfgJO)).map
        (fun r => r.event_date)).Nodup)
    ∧ (CaseCountScorer.matchWE cfgJO [ccwA, ccwB] [cceA]).Matches = [(1, 100)]
    ∧ (CaseCountScorer.matchWE cfgJO [ccwA, ccwB] [cceA]).UnmatchedWarnings
      = [1]
    ∧ 1 ∈ ((CaseCountScorer.matchWE cfgJO [ccwA, ccwB] [cceA]).Matches.map
        Prod.fst)
    ∧ 1 ∈ (CaseCountScorer.matchWE cfgJO [ccwA, ccwB] [cceA]).UnmatchedWarnings := by
  refine ⟨⟨?_, ?_⟩, ?_, ?_, ?_, ?_⟩ <;> decide

/-- C9 (amended): if, in addition to the date-uniqueness precondition, the
in-scope warning identifiers are pairwise distinct and the in-scope event
identifiers are pairwise distinct, then every warning identifier and every
event identifier appears at most once across the matched pairs and the
corresponding unmatched list of `CaseCountScorer.match`, and none appears in
both. -/
theorem claim_C9_amended (cfg : CCConfig) (warn_data gsr_data : List CCRecord)
    (hwd : ((warn_data.filter (CaseCountScorer.inScope cfg)).map
      (fun r => r.event_date)).Nodup)
    (hed : ((gsr_data.filter (CaseCountScorer.inScope cfg)).map
      (fun r => r.event_date)).Nodup)
    (hwi : ((warn_data.filter (CaseCountScorer.inScope cfg)).map
      (fun r => r.rid)).Nodup)
    (hei : ((gsr_data.filter (CaseCountScorer.inScope cfg)).map
      (fun r => r.rid)).Nodup) :
    (((CaseCountScorer.matchWE cfg warn_data gsr_data).Matches.map Prod.fst)
      ++ (CaseCountScorer.matchWE cfg warn_data gsr_data).UnmatchedWarnings).Nodup
    ∧ (((CaseCountScorer.matchWE cfg warn_data gsr_data).Matches.map Prod.snd)
      ++ (CaseCountScorer.matchWE cfg warn_data gsr_data).UnmatchedGsr).Nodup := by
  constructor
  · simp only [CaseCountScorer.matchWE]
    rw [CaseCountScorer.joinRows_filterMap_matched,
      CaseCountScorer.joinRows_filterMap_uw]
    exact CaseCountScorer.matches_uw_nodup _ _ hed hwi
  · simp only [CaseCountScorer.matchWE]
    rw [CaseCountScorer.joinRows_filterMap_matched,
      CaseCountScorer.joinRows_filterMap_ug]
    exact CaseCountScorer.matches_ug_nodup _ _ hwd hei

/-- Witness for C9 (amended): a single in-scope warning and a single in-scope
event with distinct identifiers satisfy the preconditions, and the resulting
match result satisfies the disjointness invariant. -/
theorem claim_C9_witness :
    (((CaseCountScorer.matchWE cfgJO [ccwC] [cceA]).Matches.map Prod.fst)
      ++ (CaseCountScorer.matchWE cfgJO [ccwC] [cceA]).UnmatchedWarnings).Nodup
    ∧ (((CaseCountScorer.matchWE cfgJO [ccwC] [cceA]).Matches.map Prod.snd)
      ++ (CaseCountScorer.matchWE cfgJO [ccwC] [cceA]).UnmatchedGsr).Nodup :=
  claim_C9_amended cfgJO [ccwC] [cceA] (by decide) (by decide) (by decide)
    (by decide)
